import Mathlib

/-!
# lsel: interactive line selector

A shallow embedding of `src/lsel.c` (the prompt loop, the matcher, the key
decoder, the page drawn by `menuline_print`, `numdigits` and the output stage
of `main`) together with theorems about it.

Modelling conventions.

* A C string is a `List Char` of its bytes, without the terminating NUL.
* `size_t` values are natural numbers below `SIZE_MOD = 2 ^ 64`; subtraction
  and addition of `size_t` wrap around (`size_sub`, `size_add`).
* A `MenuLine *` is an `Option Nat`: `none` is `NULL`, `some i` is `&lines[i]`.
  The array `matches` is a list of such pointers, one cell per line of the
  store (`calloc(nlines, ...)`); it is written `matches_` here, `matches`
  being a reserved word.
* Reading a cell outside `matches_` or dereferencing `NULL` is undefined
  behaviour in C; the embedding reports it as a `Fault`.
* The keyboard is the list of bytes typed so far; `getchar` on the empty list
  waits for more input, which stops the embedded loop where it stands.
* What the functions write to `stderr` does not influence the state and is
  left out of the state of the loop. The rows `menuline_print` writes are
  embedded on their own (`menuline_print`, `Row`, `row_text`); the embedded
  loop takes every drawing to stay inside defined behaviour.
* The `int` counters of `menuline_select` and `menuline_print` are natural
  numbers; `menuline_print` reports a page that ends above `INT_MAX` as a
  `Fault`.
-/

namespace Lsel

/-- A C string: its bytes, terminating NUL excluded. -/
abbrev CStr := List Char

/-- The struct `MenuLine`: an input line with its selection flag. -/
structure MenuLine where
  selected : Bool
  line : CStr
  deriving DecidableEq, Repr

/-- The global struct `config`. -/
structure Config where
  fstrstr : CStr → CStr → Bool
  autoselect : Bool
  multiselect : Bool
  numbers : Bool
  prompt : CStr

/-- Undefined behaviour the embedding makes explicit. -/
inductive Fault where
  | nullDeref
  | outOfBounds
  | divByZero
  | intRange
  | uninitRead
  deriving DecidableEq, Repr

/-- Number of values of the type `size_t`. -/
def SIZE_MOD : Nat := 2 ^ 64

/-- Subtraction of two `size_t` values, wrapping. -/
def size_sub (a b : Nat) : Nat := (a + SIZE_MOD - b % SIZE_MOD) % SIZE_MOD

/-- Addition of two `size_t` values, wrapping. -/
def size_add (a b : Nat) : Nat := (a + b) % SIZE_MOD

/-- The enum constant `INPUT_LEN`. -/
def INPUT_LEN : Nat := 80

/-- The function `ctocntrl`: `c ^ 0x40`. -/
def ctocntrl (c : Char) : Char := Char.ofNat (c.toNat ^^^ 0x40)

/-- The function `menuline_select`: write `selected` into every line (its counter
is an `int`, which covers every store of at most `INT_MAX` lines). -/
def menuline_select (lines : List MenuLine) (selected : Bool) : List MenuLine :=
  lines.map (fun l => { l with selected := selected })

/-- The text a `char` buffer denotes as a C string: the bytes before the first NUL. -/
def cstr (buf : List Char) : CStr := buf.takeWhile (fun c => c != Char.ofNat 0)

/-- The libc function `strstr`, as a truth value: `needle` occurs in `haystack`. -/
def strstr (haystack needle : CStr) : Bool :=
  haystack.tails.any (fun t => needle.isPrefixOf t)

/-- The loop of `menuline_match`: `i` is the index of the head of the remaining
lines, `matches_[*mlines] = &lines[i]; *mlines += 1` on a hit. -/
def menuline_match_loop (fstrstr : CStr → CStr → Bool) (s : CStr) :
    List MenuLine → Nat → List (Option Nat) → Nat → List (Option Nat) × Nat
  | [], _, matches_, mlines => (matches_, mlines)
  | l :: rest, i, matches_, mlines =>
      if fstrstr l.line s then
        menuline_match_loop fstrstr s rest (i + 1) (matches_.set mlines (some i)) (mlines + 1)
      else
        menuline_match_loop fstrstr s rest (i + 1) matches_ mlines

/-- The function `menuline_match`: returns the flag `mlines_orig != *mlines`,
the array `matches_` and `*mlines` as they are on return. -/
def menuline_match (fstrstr : CStr → CStr → Bool) (lines : List MenuLine) (s : CStr)
    (matches_ : List (Option Nat)) (mlines : Nat) : Bool × List (Option Nat) × Nat :=
  let r := menuline_match_loop fstrstr s lines 0 matches_ 0
  (mlines != r.2, r.1, r.2)

/-- The function `handle_control`, after `prompt` has read the ESC byte.
`height` is the global page height (a non-negative `int`, converted to
`size_t` in the comparisons). Returns `none` when the keyboard runs dry,
otherwise `finish`, the new cursor and the unread bytes. -/
def handle_control (height : Nat) (cursor mlines : Nat) :
    List Char → Option (Bool × Nat × List Char)
  | [] => none
  | c :: ks =>
    if c = '[' then
      match ks with
      | [] => none
      | c2 :: ks2 =>
        if c2 = 'A' then
          some (false, (if cursor > 0 then size_sub cursor 1 else 0), ks2)
        else if c2 = 'B' then
          some (false, (if cursor < size_sub mlines 1 then size_add cursor 1 else cursor), ks2)
        else if c2 = '5' then
          match ks2 with
          | [] => none
          | _ :: ks3 =>
            some (false, (if cursor > height then size_sub cursor height else 0), ks3)
        else if c2 = '6' then
          match ks2 with
          | [] => none
          | _ :: ks3 =>
            some (false,
              (if cursor < size_sub mlines height then size_add cursor height else cursor), ks3)
        else
          some (false, cursor, ks2)
    else if c = ctocntrl '[' then
      some (true, cursor, ks)
    else
      some (false, cursor, ks)

/-- The local variables of `prompt` that live across loop iterations, and the
line store they point into. `input` holds the bytes `input[0 .. ii-1]`, so
`ii = input.length`. -/
structure PromptState where
  lines : List MenuLine
  matches_ : List (Option Nat)
  mlines : Nat
  cursor : Nat
  input : List Char
  psel : Option Nat
  finish : Bool
  deriving DecidableEq, Repr

/-- Assignment `lines[i].selected = v` through a pointer to `lines[i]`. -/
def set_selected (lines : List MenuLine) (i : Nat) (v : Bool) : List MenuLine :=
  lines.modify (fun l => { l with selected := v }) i

/-- The statement `p->selected = !p->selected` for `p = &lines[i]`. -/
def toggle_selected (lines : List MenuLine) (i : Nat) : List MenuLine :=
  lines.modify (fun l => { l with selected := !l.selected }) i

/-- The `if (config.autoselect)` block at the head of the loop body. -/
def autoselect_step (cfg : Config) (st : PromptState) : Except Fault PromptState :=
  if cfg.autoselect then
    let lines1 :=
      match st.psel with
      | some p => set_selected st.lines p false
      | none => st.lines
    if st.mlines > 0 then
      match st.matches_[st.cursor]? with
      | none => .error .outOfBounds
      | some none => .ok { st with lines := lines1, psel := none }
      | some (some p) => .ok { st with lines := set_selected lines1 p true, psel := some p }
    else
      .ok { st with lines := lines1, psel := none }
  else
    .ok st

/-- The statement `if (menuline_match(lines, nlines, input, matches, &mlines)) cursor = 0;`
that closes the `else` branch of the key dispatch in `prompt`. -/
def apply_filter (cfg : Config) (st : PromptState) : PromptState :=
  let m := menuline_match cfg.fstrstr st.lines (cstr st.input) st.matches_ st.mlines
  { st with matches_ := m.2.1, mlines := m.2.2, cursor := if m.1 then 0 else st.cursor }

/-- The `else` branch of the key dispatch in `prompt` (a byte other than ESC),
before the filter is applied again: Backspace, Enter, Tab or a filter byte. -/
def edit_key (cfg : Config) (st : PromptState) (c : Char) : Except Fault PromptState :=
  if c = Char.ofNat 127 then
    .ok (if st.input.length > 0 then { st with input := st.input.dropLast } else st)
  else if c = '\n' ∨ c = Char.ofNat 13 then
    .ok { st with finish := true }
  else if c = '\t' then
    let lines1 := if !cfg.multiselect then menuline_select st.lines false else st.lines
    match st.matches_[st.cursor]? with
    | none => .error .outOfBounds
    | some none => .error .nullDeref
    | some (some p) => .ok { st with lines := toggle_selected lines1 p }
  else
    .ok (if st.input.length < INPUT_LEN - 1 then { st with input := st.input ++ [c] } else st)

/-- The whole `else` branch of the key dispatch in `prompt`: the key, then the
filter applied again. -/
def handle_key (cfg : Config) (st : PromptState) (c : Char) : Except Fault PromptState :=
  match edit_key cfg st c with
  | .error e => .error e
  | .ok st1 => .ok (apply_filter cfg st1)

/-- One pass through the body of `while (!finish)`. `none` means the keyboard
ran dry before the pass was over. -/
def prompt_iter (cfg : Config) (height : Nat) (st : PromptState) (keys : List Char) :
    Except Fault (Option (PromptState × List Char)) :=
  match autoselect_step cfg st with
  | .error e => .error e
  | .ok st1 =>
    match keys with
    | [] => .ok none
    | c :: ks =>
      if c = ctocntrl '[' then
        match handle_control height st1.cursor st1.mlines ks with
        | none => .ok none
        | some (finish, cursor, ks1) =>
          .ok (some ({ st1 with
                        cursor := cursor
                        finish := finish
                        lines := if finish then menuline_select st1.lines false else st1.lines },
                     ks1))
      else
        match handle_key cfg st1 c with
        | .error e => .error e
        | .ok st2 => .ok (some (st2, ks))

/-- The loop `while (!finish)`, run for at most `fuel` passes. It stops when
`finish` is set or when the keyboard runs dry, and returns the state at the
last loop head it reached with the unread bytes. -/
def prompt_loop (cfg : Config) (height : Nat) :
    Nat → PromptState → List Char → Except Fault (PromptState × List Char)
  | 0, st, keys => .ok (st, keys)
  | fuel + 1, st, keys =>
    if st.finish then .ok (st, keys)
    else
      match prompt_iter cfg height st keys with
      | .error e => .error e
      | .ok none => .ok (st, keys)
      | .ok (some (st1, keys1)) => prompt_loop cfg height fuel st1 keys1

/-- The state of `prompt` when it enters the loop: `cursor = 0`, all lines
matched against `""`, empty `input`, `psel = NULL`. -/
def prompt_init (cfg : Config) (lines : List MenuLine) : PromptState :=
  let m := menuline_match cfg.fstrstr lines [] (List.replicate lines.length none) 0
  { lines := lines, matches_ := m.2.1, mlines := m.2.2, cursor := 0, input := [],
    psel := none, finish := false }

/-- The function `prompt` on the bytes `keys`. Every pass reads at least one
byte, so `keys.length` passes exhaust the keyboard. `mlines % height`
divides by zero when `height` is 0. -/
def prompt (cfg : Config) (lines : List MenuLine) (height : Nat) (keys : List Char) :
    Except Fault (PromptState × List Char) :=
  if height = 0 then .error .divByZero
  else prompt_loop cfg height keys.length (prompt_init cfg lines) keys

/-- The line store `main` builds from standard input: nothing selected. -/
def load_lines (stdin : List CStr) : List MenuLine :=
  stdin.map (fun l => { selected := false, line := l })

/-- The output loop of `main`: `printf("%s\n", ...)` for every selected line. -/
def main_output (lines : List MenuLine) : List Char :=
  (lines.filter (fun l => l.selected)).flatMap (fun l => l.line ++ ['\n'])

/-- The value `main` returns: `len == 0`, where `len` counts the printed lines. -/
def main_status (lines : List MenuLine) : Nat :=
  if (lines.filter (fun l => l.selected)).length = 0 then 1 else 0

/-- Modelled from the spec: `config_init` lives in `config.h`, which is not
part of the sources at hand. The spec fixes its matcher as case-sensitive
containment and every flag as off; the prompt text is taken to be empty. -/
def config_init : Config :=
  { fstrstr := strstr, autoselect := false, multiselect := false, numbers := false,
    prompt := [] }

/-- The pointers to the lines whose text satisfies `fstrstr` against `s`, in
store order. -/
def match_indices (fstrstr : CStr → CStr → Bool) (s : CStr) (lines : List MenuLine) :
    List (Option Nat) :=
  (lines.enum.filter (fun p => fstrstr p.2.line s)).map (fun p => some p.1)

/-- The state of `matches_` and `mlines` that a call of `menuline_match` with
the current filter leaves behind: the array has a cell for every line, its
first `mlines` cells point to the matching lines in store order, and `mlines`
counts them. -/
def MatchInv (cfg : Config) (st : PromptState) : Prop :=
  st.lines.length ≤ st.matches_.length ∧
  st.matches_.take st.mlines = match_indices cfg.fstrstr (cstr st.input) st.lines ∧
  st.mlines = (st.lines.filter (fun l => cfg.fstrstr l.line (cstr st.input))).length

instance (cfg : Config) (st : PromptState) : Decidable (MatchInv cfg st) := by
  unfold MatchInv
  infer_instance

/-- The loop `for (i=0; i<nlines; i++) if (lines[i].selected) ...` at the end
of `main`: `out` is what standard output holds so far, `len` the number of
lines printed so far. -/
def main_emit : List MenuLine → List Char → Nat → List Char × Nat
  | [], out, len => (out, len)
  | l :: rest, out, len =>
    if l.selected then main_emit rest (out ++ (l.line ++ ['\n'])) (len + 1)
    else main_emit rest out len

/-- The end of `main`: what it writes to standard output and the value
`len == 0` it returns. -/
def main_finish (lines : List MenuLine) : List Char × Nat :=
  ((main_emit lines [] 0).1, if (main_emit lines [] 0).2 = 0 then 1 else 0)

/-- The loop `while ((n /= 10) > 9) digits++;` of `numdigits`, for at most
`fuel` rounds. -/
def numdigits_loop : Nat → Nat → Nat → Nat
  | 0, _, digits => digits
  | fuel + 1, n, digits =>
    if n / 10 > 9 then numdigits_loop fuel (n / 10) (digits + 1) else digits

/-- The function `numdigits`. A round that goes on divides `n` by 10, so
`n + 1` rounds are never used up. -/
def numdigits (n : Nat) : Nat := numdigits_loop (n + 1) n 1

/-- The largest `int`. -/
def INT_MAX : Nat := 2 ^ 31 - 1

/-- The NUL byte. -/
def NUL : Char := Char.ofNat 0

/-- The globals `height`, `width` and `print_offset` as `menuline_print` finds them. -/
structure Screen where
  height : Nat
  width : Nat
  print_offset : Nat
  deriving DecidableEq, Repr

/-- The value `prompt` gives the global `print_offset` before the loop:
`numdigits(nlines)` when `config.numbers` is set, 0 otherwise. -/
def prompt_print_offset (cfg : Config) (nlines : Nat) : Nat :=
  if cfg.numbers then numdigits nlines else 0

/-- The libc function `strncpy(dst, src, n)` on a buffer whose cells are
`none` while they hold no value yet: the first `n` bytes of `src`, then NUL
bytes up to `n` bytes in all; the cells from `n` on keep what they held. -/
def strncpy (dst : List (Option Char)) (src : CStr) (n : Nat) : List (Option Char) :=
  (src.take n).map some ++ List.replicate (n - src.length) (some NUL) ++ dst.drop n

/-- The text `%s` prints from a buffer: the bytes before the first NUL. Reading a
cell that holds no value, or running past the end of the buffer, is a fault. -/
def read_cstr : List (Option Char) → Except Fault CStr
  | [] => .error .outOfBounds
  | none :: _ => .error .uninitRead
  | some c :: rest =>
    if c = NUL then .ok []
    else
      match read_cstr rest with
      | .error e => .error e
      | .ok t => .ok (c :: t)

/-- The libc conversion `%ld` of a non-negative value: its decimal digits. -/
def decimal (v : Nat) : List Char := Nat.toDigits 10 v

/-- The libc conversion `%Xld` with the minimum field width `X`: the decimal
digits, with blanks in front when they are fewer than `X`. -/
def fmt_ld (x v : Nat) : List Char :=
  List.replicate (x - (decimal v).length) ' ' ++ decimal v

/-- What one round of the loop of `menuline_print` writes: the arguments of
its `fprintf`. -/
inductive Row where
  | blank
  | plain (s c : Char) (buf : CStr)
  | numbered (num : Nat) (s c : Char) (buf : CStr)
  deriving DecidableEq, Repr

/-- The characters of a row on the screen, its closing newline left out:
`"%c%c%s"` for a plain row, `"%Xld%c%c%s"` with `X = print_offset` (the `fmt`
that `prompt` builds) for a numbered one, nothing for a blank one. -/
def row_text (print_offset : Nat) : Row → List Char
  | .blank => []
  | .plain s c buf => [s, c] ++ buf
  | .numbered num s c buf => fmt_ld print_offset num ++ [s, c] ++ buf

/-- The cursor marker `c` a row is written with; a blank row has none. -/
def row_cursor : Row → Option Char
  | .blank => none
  | .plain _ c _ => some c
  | .numbered _ _ c _ => some c

/-- The selection marker `s` a row is written with; a blank row has none. -/
def row_selection : Row → Option Char
  | .blank => none
  | .plain s _ _ => some s
  | .numbered _ s _ _ => some s

/-- The text `buf` a row is written with; a blank row has none. -/
def row_buf : Row → Option CStr
  | .blank => none
  | .plain _ _ buf => some buf
  | .numbered _ _ _ buf => some buf

/-- The body of the loop of `menuline_print` for the match index `i`. The
buffer `buf` has `width` cells without a value; `buf[width-2-print_offset]`
lies before the buffer when `width < 2 + print_offset`. -/
def print_row (cfg : Config) (scr : Screen) (lines : List MenuLine) (ml : List (Option Nat))
    (n cur i : Nat) : Except Fault Row :=
  let c := if i = cur then '>' else ' '
  if i < n then
    match ml[i]? with
    | none => .error .outOfBounds
    | some none => .error .nullDeref
    | some (some p) =>
      match lines[p]? with
      | none => .error .outOfBounds
      | some l =>
        let s := if l.selected then '*' else ' '
        if scr.width < 2 + scr.print_offset then .error .outOfBounds
        else
          let buf := (strncpy (List.replicate scr.width none) l.line (scr.width - 1)).set
            (scr.width - 2 - scr.print_offset) (some NUL)
          match read_cstr buf with
          | .error e => .error e
          | .ok text => .ok (if cfg.numbers then .numbered (i + 1) s c text else .plain s c text)
  else
    .ok .blank

/-- The loop of `menuline_print` from the match index `i` on, `count` rounds. -/
def menuline_print_loop (cfg : Config) (scr : Screen) (lines : List MenuLine)
    (ml : List (Option Nat)) (n cur : Nat) : Nat → Nat → Except Fault (List Row)
  | _, 0 => .ok []
  | i, count + 1 =>
    match print_row cfg scr lines ml n cur i with
    | .error e => .error e
    | .ok r =>
      match menuline_print_loop cfg scr lines ml n cur (i + 1) count with
      | .error e => .error e
      | .ok rs => .ok (r :: rs)

/-- The function `menuline_print`: the rows it writes to `stderr`, top to
bottom. The loop runs from `height*cpage` up to `height*(cpage+1)`, which is
`height` rounds. An array `buf[width]` of no cells, `cur / height` with
`height` 0 and a bound of the `int` counter `i` above `INT_MAX` are faults. -/
def menuline_print (cfg : Config) (scr : Screen) (lines : List MenuLine)
    (ml : List (Option Nat)) (n cur : Nat) : Except Fault (List Row) :=
  if scr.width = 0 then .error .outOfBounds
  else if scr.height = 0 then .error .divByZero
  else if INT_MAX < scr.height * (cur / scr.height + 1) then .error .intRange
  else menuline_print_loop cfg scr lines ml n cur (scr.height * (cur / scr.height)) scr.height

/-! ## Lemmas on lists -/

theorem take_set_self {α : Type} (m : List α) (k : Nat) (a : α) :
    (m.set k a).take k = m.take k := by
  apply List.ext_getElem?
  intro j
  rw [List.getElem?_take, List.getElem?_take]
  split
  · rw [List.getElem?_set_ne (by omega)]
  · rfl

/-! ## The matcher -/

theorem menuline_match_loop_spec (fstrstr : CStr → CStr → Bool) (s : CStr) :
    ∀ (rest : List MenuLine) (i : Nat) (m : List (Option Nat)) (k : Nat),
      k ≤ i → i + rest.length ≤ m.length →
      (menuline_match_loop fstrstr s rest i m k).1.length = m.length ∧
      (menuline_match_loop fstrstr s rest i m k).2 =
        k + (rest.filter (fun l => fstrstr l.line s)).length ∧
      (menuline_match_loop fstrstr s rest i m k).1.take
          (menuline_match_loop fstrstr s rest i m k).2 =
        m.take k ++ ((rest.enumFrom i).filter (fun p => fstrstr p.2.line s)).map
          (fun p => some p.1) := by
  intro rest
  induction rest with
  | nil =>
    intro i m k _ _
    simp [menuline_match_loop]
  | cons l rest ih =>
    intro i m k hk hlen
    simp only [List.length_cons] at hlen
    by_cases hl : fstrstr l.line s = true
    · have hkm : k < m.length := by omega
      obtain ⟨h1, h2, h3⟩ := ih (i + 1) (m.set k (some i)) (k + 1) (by omega)
        (by simp only [List.length_set]; omega)
      simp only [menuline_match_loop, hl, if_true, List.enumFrom_cons, List.filter_cons,
        List.length_cons, List.map_cons]
      refine ⟨by simpa using h1, by omega, ?_⟩
      rw [h3, List.take_succ]
      simp [List.getElem?_set, hkm, take_set_self]
    · obtain ⟨h1, h2, h3⟩ := ih (i + 1) m k (by omega) (by omega)
      simp only [menuline_match_loop, hl, List.enumFrom_cons, List.filter_cons]
      exact ⟨h1, by simpa using h2, by simpa using h3⟩

theorem deref_enum_filter (lines : List MenuLine) (q : MenuLine → Bool) :
    ((lines.enum.filter (fun p => q p.2)).map (fun p => some p.1)).filterMap
        (fun p => p.bind (fun i => lines[i]?)) = lines.filter q := by
  rw [List.filterMap_map]
  have h : ∀ p ∈ lines.enum.filter (fun p => q p.2),
      ((fun (p : Option Nat) => p.bind (fun i => lines[i]?)) ∘
        fun (p : Nat × MenuLine) => some p.1) p = (some ∘ Prod.snd) p := by
    intro p hp
    have hp1 : p ∈ lines.enum := (List.mem_filter.mp hp).1
    simpa using List.mem_enum_iff_getElem?.mp hp1
  rw [List.filterMap_congr h, List.filterMap_eq_map]
  have h2 : (fun (p : Nat × MenuLine) => q p.2) = q ∘ Prod.snd := rfl
  rw [h2, ← List.filter_map, List.enum_map_snd]

/-- After `menuline_match` the first `*mlines` cells of `matches_` are the
pointers to the matching lines in store order, and `*mlines` counts them. -/
theorem menuline_match_indices (fstrstr : CStr → CStr → Bool) (lines : List MenuLine)
    (s : CStr) (matches_ : List (Option Nat)) (mlines : Nat)
    (hlen : lines.length ≤ matches_.length) :
    (menuline_match fstrstr lines s matches_ mlines).2.1.take
        (menuline_match fstrstr lines s matches_ mlines).2.2 =
      match_indices fstrstr s lines ∧
    (menuline_match fstrstr lines s matches_ mlines).2.2 =
      (lines.filter (fun l => fstrstr l.line s)).length := by
  obtain ⟨_, h2, h3⟩ := menuline_match_loop_spec fstrstr s lines 0 matches_ 0 (le_refl 0)
    (by simpa using hlen)
  exact ⟨by simpa [menuline_match, match_indices, List.enum] using h3,
    by simpa [menuline_match] using h2⟩

/-- C1: for every line store, filter and predicate, `menuline_match` leaves in
the first `*mlines` cells of `matches_` the pointers to exactly the lines whose
text satisfies the predicate against the filter, in store order (so reading the
lines through these pointers gives the store filtered by the predicate, nothing
dropped, repeated or moved), and `*mlines` is the number of such lines. The
hypothesis is the size of the array: `prompt` allocates one cell per line. -/
theorem menuline_match_exact (fstrstr : CStr → CStr → Bool) (lines : List MenuLine) (s : CStr)
    (matches_ : List (Option Nat)) (mlines : Nat) (hlen : lines.length ≤ matches_.length) :
    (menuline_match fstrstr lines s matches_ mlines).2.1.take
        (menuline_match fstrstr lines s matches_ mlines).2.2 =
      (lines.enum.filter (fun p => fstrstr p.2.line s)).map (fun p => some p.1) ∧
    ((menuline_match fstrstr lines s matches_ mlines).2.1.take
        (menuline_match fstrstr lines s matches_ mlines).2.2).filterMap
        (fun p => p.bind (fun i => lines[i]?)) = lines.filter (fun l => fstrstr l.line s) ∧
    (menuline_match fstrstr lines s matches_ mlines).2.2 =
      (lines.filter (fun l => fstrstr l.line s)).length := by
  obtain ⟨h1, h2⟩ := menuline_match_indices fstrstr lines s matches_ mlines hlen
  refine ⟨h1, ?_, h2⟩
  rw [h1]
  exact deref_enum_filter lines (fun l => fstrstr l.line s)

/-- Witness of C1: three lines, the filter `b`, a fresh array of three cells. -/
theorem menuline_match_exact_witness :
    (menuline_match strstr [⟨false, ['a']⟩, ⟨true, ['b', 'b']⟩, ⟨false, ['a', 'b']⟩] ['b']
        [none, none, none] 3).2.1.take 2 = [some 1, some 2] := by
  have h := menuline_match_exact strstr
    [⟨false, ['a']⟩, ⟨true, ['b', 'b']⟩, ⟨false, ['a', 'b']⟩] ['b'] [none, none, none] 3
    (by decide)
  have h2 : (menuline_match strstr
      [⟨false, ['a']⟩, ⟨true, ['b', 'b']⟩, ⟨false, ['a', 'b']⟩] ['b']
      [none, none, none] 3).2.2 = 2 := by decide
  rw [h2] at h
  exact h.1.trans (by decide)

/-! ## The key decoder -/

theorem ctocntrl_bracket : ctocntrl '[' = Char.ofNat 27 := by decide

theorem size_sub_eq (a b : Nat) (hb : b ≤ a) (ha : a < SIZE_MOD) : size_sub a b = a - b := by
  unfold size_sub SIZE_MOD at *
  omega

theorem size_add_eq (a b : Nat) (h : a + b < SIZE_MOD) : size_add a b = a + b := by
  unfold size_add SIZE_MOD at *
  omega

/-- C7: for a non-empty match set (`0 < mlines`), ArrowDown adds exactly 1 to a
cursor below the last index `mlines - 1` and leaves the cursor alone at the
last index; ArrowUp subtracts exactly 1 from a cursor above 0 and leaves the
cursor alone at 0. `mlines` and `cursor` are `size_t` values. -/
theorem arrow_keys (height cursor mlines : Nat) (ks : List Char)
    (hm : 0 < mlines) (hsz : mlines < SIZE_MOD) (hcs : cursor < SIZE_MOD) :
    handle_control height cursor mlines ('[' :: 'B' :: ks) =
      some (false, (if cursor < mlines - 1 then cursor + 1 else cursor), ks) ∧
    handle_control height cursor mlines ('[' :: 'A' :: ks) =
      some (false, (if 0 < cursor then cursor - 1 else cursor), ks) ∧
    (cursor = mlines - 1 →
      handle_control height cursor mlines ('[' :: 'B' :: ks) = some (false, cursor, ks)) ∧
    (cursor = 0 →
      handle_control height cursor mlines ('[' :: 'A' :: ks) = some (false, cursor, ks)) := by
  have h1 : size_sub mlines 1 = mlines - 1 := size_sub_eq mlines 1 (by omega) hsz
  have hdown : handle_control height cursor mlines ('[' :: 'B' :: ks) =
      some (false, (if cursor < mlines - 1 then cursor + 1 else cursor), ks) := by
    have h2 : ('B' : Char) ≠ 'A' := by decide
    simp only [handle_control, if_true, h2, if_false, h1]
    by_cases hlt : cursor < mlines - 1
    · rw [size_add_eq cursor 1 (by omega)]
    · simp [hlt]
  have hup : handle_control height cursor mlines ('[' :: 'A' :: ks) =
      some (false, (if 0 < cursor then cursor - 1 else cursor), ks) := by
    simp only [handle_control, if_true]
    by_cases hpos : 0 < cursor
    · rw [size_sub_eq cursor 1 (by omega) hcs]
      simp [hpos]
    · have h0 : cursor = 0 := by omega
      simp [h0]
  refine ⟨hdown, hup, ?_, ?_⟩
  · intro hlast
    rw [hdown]
    simp [hlast]
  · intro h0
    rw [hup]
    simp [h0]

/-- Witness of C7: five matches, the cursor on the last one. -/
theorem arrow_keys_witness :
    handle_control 2 4 5 ['[', 'B'] = some (false, 4, []) ∧
    handle_control 2 4 5 ['[', 'A'] = some (false, 3, []) := by
  have h := arrow_keys 2 4 5 [] (by decide) (by decide) (by decide)
  exact ⟨by simpa using h.1, by simpa using h.2.1⟩

/-- C6, amended: when the match set holds at least a page (`height ≤ mlines`),
PageDown moves the cursor down by a whole page if `cursor + height` is still an
index of the match set, and leaves it where it is otherwise; a cursor inside
the match set stays inside. The third byte of the key (`~`) is read and dropped. -/
theorem page_down_guarded (height cursor mlines : Nat) (c : Char) (ks : List Char)
    (hm : height ≤ mlines) (hsz : mlines < SIZE_MOD) :
    handle_control height cursor mlines ('[' :: '6' :: c :: ks) =
      some (false, (if cursor + height < mlines then cursor + height else cursor), ks) ∧
    (cursor < mlines →
      (if cursor + height < mlines then cursor + height else cursor) ≤ mlines - 1) := by
  have h1 : size_sub mlines height = mlines - height := size_sub_eq mlines height hm hsz
  constructor
  · have hA : ('6' : Char) ≠ 'A' := by decide
    have hB : ('6' : Char) ≠ 'B' := by decide
    have h5 : ('6' : Char) ≠ '5' := by decide
    simp only [handle_control, if_true, hA, hB, h5, if_false, h1]
    by_cases hlt : cursor + height < mlines
    · have hlt2 : cursor < mlines - height := by omega
      rw [size_add_eq cursor height (by omega)]
      simp [hlt, hlt2]
    · have hlt2 : ¬ cursor < mlines - height := by omega
      simp [hlt, hlt2]
  · intro hc
    split <;> omega

/-- Witness of C6, amended: page height 2 and 5 matches, PageDown from 0 and from 2. -/
theorem page_down_guarded_witness :
    handle_control 2 0 5 ['[', '6', '~'] = some (false, 2, []) ∧
    handle_control 2 2 5 ['[', '6', '~'] = some (false, 4, []) := by
  exact ⟨by simpa using (page_down_guarded 2 0 5 '~' [] (by decide) (by decide)).1,
    by simpa using (page_down_guarded 2 2 5 '~' [] (by decide) (by decide)).1⟩

/-! ## Escape -/

theorem menuline_select_all (lines : List MenuLine) (v : Bool) :
    ∀ l ∈ menuline_select lines v, l.selected = v := by
  intro l hl
  simp only [menuline_select, List.mem_map] at hl
  obtain ⟨l0, _, rfl⟩ := hl
  rfl

theorem menuline_select_line (lines : List MenuLine) (v : Bool) :
    (menuline_select lines v).map (fun l => l.line) = lines.map (fun l => l.line) := by
  simp [menuline_select, Function.comp_def]

theorem main_output_none (lines : List MenuLine) (h : ∀ l ∈ lines, l.selected = false) :
    main_output lines = [] ∧ main_status lines = 1 := by
  have hf : lines.filter (fun l => l.selected) = [] := by
    rw [List.filter_eq_nil_iff]
    intro l hl
    simp [h l hl]
  simp [main_output, main_status, hf]

theorem modify_line (lines : List MenuLine) (f : MenuLine → MenuLine) (i : Nat)
    (hf : ∀ l, (f l).line = l.line) :
    (lines.modify f i).map (fun l => l.line) = lines.map (fun l => l.line) := by
  apply List.ext_getElem?
  intro j
  simp only [List.getElem?_map, List.getElem?_modify]
  by_cases hij : i = j
  · cases h : lines[j]? <;> simp [hij, h, hf]
  · simp [hij]

theorem set_selected_line (lines : List MenuLine) (i : Nat) (v : Bool) :
    (set_selected lines i v).map (fun l => l.line) = lines.map (fun l => l.line) :=
  modify_line lines _ i (fun _ => rfl)

theorem toggle_selected_line (lines : List MenuLine) (i : Nat) :
    (toggle_selected lines i).map (fun l => l.line) = lines.map (fun l => l.line) :=
  modify_line lines _ i (fun _ => rfl)

theorem autoselect_step_line (cfg : Config) (st st1 : PromptState)
    (h : autoselect_step cfg st = .ok st1) :
    st1.lines.map (fun l => l.line) = st.lines.map (fun l => l.line) := by
  have hp : (match st.psel with
      | some p => set_selected st.lines p false
      | none => st.lines).map (fun (l : MenuLine) => l.line) =
        st.lines.map (fun l => l.line) := by
    cases st.psel with
    | none => rfl
    | some p => exact set_selected_line _ _ _
  unfold autoselect_step at h
  by_cases hauto : cfg.autoselect = true
  · simp only [hauto, if_true] at h
    by_cases hm : st.mlines > 0
    · simp only [hm, if_true] at h
      cases hc : st.matches_[st.cursor]? with
      | none => simp [hc] at h
      | some q =>
        cases q with
        | none =>
          simp only [hc, Except.ok.injEq] at h
          subst h
          exact hp
        | some p =>
          simp only [hc, Except.ok.injEq] at h
          subst h
          exact (set_selected_line _ _ _).trans hp
    · simp only [hm, if_false, Except.ok.injEq] at h
      subst h
      exact hp
  · simp only [hauto, Bool.false_eq_true, if_false, Except.ok.injEq] at h
    subst h
    rfl

theorem autoselect_step_frame (cfg : Config) (st st1 : PromptState)
    (h : autoselect_step cfg st = .ok st1) :
    st1.matches_ = st.matches_ ∧ st1.mlines = st.mlines ∧ st1.cursor = st.cursor ∧
      st1.input = st.input ∧ st1.finish = st.finish := by
  unfold autoselect_step at h
  by_cases hauto : cfg.autoselect = true
  · simp only [hauto, if_true] at h
    by_cases hm : st.mlines > 0
    · simp only [hm, if_true] at h
      cases hc : st.matches_[st.cursor]? with
      | none => simp [hc] at h
      | some q =>
        cases q with
        | none =>
          simp only [hc, Except.ok.injEq] at h
          subst h
          exact ⟨rfl, rfl, rfl, rfl, rfl⟩
        | some p =>
          simp only [hc, Except.ok.injEq] at h
          subst h
          exact ⟨rfl, rfl, rfl, rfl, rfl⟩
    · simp only [hm, if_false, Except.ok.injEq] at h
      subst h
      exact ⟨rfl, rfl, rfl, rfl, rfl⟩
  · simp only [hauto, Bool.false_eq_true, if_false, Except.ok.injEq] at h
    subst h
    exact ⟨rfl, rfl, rfl, rfl, rfl⟩

/-- C4: from any running state, with any line store and any selection flags,
when the key read is ESC and `handle_control` reports the Escape event
(`finish = true`), the loop stops there and every line of the whole store
(the same lines, by their texts) has `selected = false`; `main` then prints
nothing and returns 1. The hypothesis `ha` says the autoselect block at the
head of the pass did not fault; without autoselect it always holds. -/
theorem escape_deselects_all (cfg : Config) (height fuel : Nat) (st st1 : PromptState)
    (ks ks1 : List Char) (cur : Nat)
    (hrun : st.finish = false) (ha : autoselect_step cfg st = .ok st1)
    (hesc : handle_control height st1.cursor st1.mlines ks = some (true, cur, ks1)) :
    ∃ st2, prompt_loop cfg height (fuel + 1) st (ctocntrl '[' :: ks) = .ok (st2, ks1) ∧
      st2.finish = true ∧
      st2.lines.map (fun l => l.line) = st.lines.map (fun l => l.line) ∧
      (∀ l ∈ st2.lines, l.selected = false) ∧
      main_output st2.lines = [] ∧ main_status st2.lines = 1 := by
  refine ⟨{ st1 with cursor := cur, finish := true, lines := menuline_select st1.lines false },
    ?_, rfl, ?_, menuline_select_all _ _, main_output_none _ (menuline_select_all _ _)⟩
  · cases fuel <;> simp [prompt_loop, hrun, prompt_iter, ha, hesc]
  · simp only [menuline_select_line]
    exact autoselect_step_line cfg st st1 ha

/-- Witness of C4: two selected lines, one of them outside the match set, ESC ESC. -/
theorem escape_deselects_all_witness :
    ∃ st2, prompt_loop config_init 2 1
        { lines := [⟨true, ['x']⟩, ⟨true, ['y']⟩], matches_ := [some 1, none], mlines := 1,
          cursor := 0, input := ['y'], psel := none, finish := false }
        [ctocntrl '[', ctocntrl '['] = .ok (st2, []) ∧
      st2.finish = true ∧
      st2.lines.map (fun l => l.line) = [['x'], ['y']] ∧
      (∀ l ∈ st2.lines, l.selected = false) ∧
      main_output st2.lines = [] ∧ main_status st2.lines = 1 :=
  escape_deselects_all config_init 2 0
    { lines := [⟨true, ['x']⟩, ⟨true, ['y']⟩], matches_ := [some 1, none], mlines := 1,
      cursor := 0, input := ['y'], psel := none, finish := false } _ [ctocntrl '['] [] 0
    rfl rfl (by decide)

/-- C5, amended: after ESC, a second byte `b` other than `[` ends the loop
exactly when `b` is ESC itself (`ctocntrl '['`, 0x1B): `handle_control` returns
`finish = true` for ESC ESC and the loop stops with the store deselected; for
any other `b` it returns `false`, the two bytes are consumed and cursor, store
and `finish` stay as they were. The hypotheses say that the loop is running and
that the autoselect block at the head of the pass did not fault. -/
theorem esc_second_byte (cfg : Config) (height fuel : Nat) (st st1 : PromptState) (b : Char)
    (ks : List Char) (hb : b ≠ '[') (hrun : st.finish = false)
    (ha : autoselect_step cfg st = .ok st1) :
    handle_control height st1.cursor st1.mlines (b :: ks) =
      some (decide (b = ctocntrl '['), st1.cursor, ks) ∧
    prompt_iter cfg height st (ctocntrl '[' :: b :: ks) =
      .ok (some ({ st1 with
                    finish := decide (b = ctocntrl '[')
                    lines := if b = ctocntrl '[' then menuline_select st1.lines false
                             else st1.lines }, ks)) ∧
    (b = ctocntrl '[' →
      prompt_loop cfg height (fuel + 1) st (ctocntrl '[' :: b :: ks) =
        .ok ({ st1 with finish := true, lines := menuline_select st1.lines false }, ks)) ∧
    (b ≠ ctocntrl '[' →
      prompt_iter cfg height st (ctocntrl '[' :: b :: ks) = .ok (some (st1, ks))) := by
  have h1 : handle_control height st1.cursor st1.mlines (b :: ks) =
      some (decide (b = ctocntrl '['), st1.cursor, ks) := by
    have hne : ctocntrl '[' ≠ '[' := by decide
    by_cases he : b = ctocntrl '['
    · subst he
      simp [handle_control, hne]
    · simp [handle_control, hb, he]
  have h2 : prompt_iter cfg height st (ctocntrl '[' :: b :: ks) =
      .ok (some ({ st1 with
                    finish := decide (b = ctocntrl '[')
                    lines := if b = ctocntrl '[' then menuline_select st1.lines false
                             else st1.lines }, ks)) := by
    simp only [prompt_iter, ha, if_true, h1]
    by_cases he : b = ctocntrl '[' <;> simp [he]
  refine ⟨h1, h2, ?_, ?_⟩
  · intro he
    subst he
    cases fuel <;> simp [prompt_loop, hrun, h2]
  · intro he
    rw [h2]
    have hfin : st1.finish = false := (autoselect_step_frame cfg st st1 ha).2.2.2.2.trans hrun
    cases st1
    simp_all

/-- Witness of C5, amended: ESC ESC ends the loop, ESC `a` does not. -/
theorem esc_second_byte_witness :
    handle_control 2 0 2 [ctocntrl '['] = some (true, 0, []) ∧
    handle_control 2 0 2 ['a'] = some (false, 0, []) := by
  exact ⟨(esc_second_byte config_init 2 0 (prompt_init config_init (load_lines [['x'], ['y']])) _
      (ctocntrl '[') [] (by decide) rfl rfl).1,
    (esc_second_byte config_init 2 0 (prompt_init config_init (load_lines [['x'], ['y']])) _
      'a' [] (by decide) rfl rfl).1⟩

/-! ## Evaluations -/

/-- C2, evaluated where it fails: one line `a` and page height 2. PageDown
(ESC `[` `6` `~`) takes the cursor from 0 to 2 although there is one match, and
after the filter `b` has emptied the match set ArrowDown (ESC `[` `B`) takes
the cursor from 0 to 1. -/
theorem cursor_range_broken :
    (∃ st, prompt config_init (load_lines [['a']]) 2 [ctocntrl '[', '[', '6', '~'] = .ok (st, [])
      ∧ st.mlines = 1 ∧ st.cursor = 2 ∧ ¬ st.cursor ≤ max 0 (st.mlines - 1)) ∧
    (∃ st, prompt config_init (load_lines [['a']]) 2 ['b', ctocntrl '[', '[', 'B'] = .ok (st, [])
      ∧ st.mlines = 0 ∧ st.cursor = 1 ∧ ¬ st.cursor ≤ max 0 (st.mlines - 1)) := by
  refine ⟨⟨_, rfl, ?_⟩, ⟨_, rfl, ?_⟩⟩ <;> decide

/-- C3, evaluated where it fails: autoselect on, multiselect off, lines `a` and
`ab`. The keys `x`, ArrowDown, Tab, Backspace, Enter end the loop with both
lines selected, and `main` prints both. -/
theorem single_select_two_selected :
    ∃ st, prompt { config_init with autoselect := true } (load_lines [['a'], ['a', 'b']]) 2
        ['x', ctocntrl '[', '[', 'B', '\t', Char.ofNat 127, '\n'] = .ok (st, []) ∧
      st.finish = true ∧
      st.lines = [⟨true, ['a']⟩, ⟨true, ['a', 'b']⟩] ∧
      (st.lines.filter (fun l => l.selected)).length = 2 ∧
      main_output st.lines = ['a', '\n', 'a', 'b', '\n'] := by
  refine ⟨_, rfl, ?_⟩
  decide

/-- C8, evaluated where it fails: one line `a`, the filter `b` leaves no match
(`mlines = 0`) and nothing selected; Tab then sets the flag of line `a`, which
the stale cell `matches_[0]` still points to, and the match set stays empty. -/
theorem tab_on_empty_match_selects :
    ∃ st st1, prompt config_init (load_lines [['a']]) 2 ['b'] = .ok (st, []) ∧
      st.mlines = 0 ∧ st.lines = [⟨false, ['a']⟩] ∧
      handle_key config_init st '\t' = .ok st1 ∧
      st1.mlines = 0 ∧ st1.lines = [⟨true, ['a']⟩] ∧
      main_output st1.lines = ['a', '\n'] := by
  refine ⟨_, _, rfl, ?_, ?_, rfl, ?_⟩ <;> decide

/-- Counterexample to C5: the byte `a` differs from `[`, yet after ESC `a`
`handle_control` returns `false` and the loop is still running. -/
theorem esc_then_other_byte_continues :
    'a' ≠ '[' ∧ handle_control 2 0 2 ['a'] = some (false, 0, []) ∧
    ∃ st, prompt config_init (load_lines [['x'], ['y']]) 2 [ctocntrl '[', 'a'] = .ok (st, []) ∧
      st.finish = false := by
  refine ⟨by decide, by decide, _, rfl, ?_⟩
  decide

/-- Counterexample to C6: with page height 2 and 5 matches PageDown leaves the
cursor at 3, not at `min (3 + 2) (5 - 1) = 4`; with page height 2 and a single
match it moves the cursor from 0 to 2, past the last match. -/
theorem page_down_not_min :
    handle_control 2 3 5 ['[', '6', '~'] = some (false, 3, []) ∧ 3 ≠ min (3 + 2) (5 - 1) ∧
    handle_control 2 0 1 ['[', '6', '~'] = some (false, 2, []) ∧ ¬ 2 ≤ 1 - 1 := by
  decide

/-! ## The match invariant -/

/-- The function `match_indices` reads the texts only. -/
theorem match_indices_texts (f : CStr → CStr → Bool) (s : CStr) (lines : List MenuLine) :
    match_indices f s lines =
      (((lines.map (fun l => l.line)).enum.filter (fun p => f p.2 s)).map
        (fun p => some p.1)) := by
  simp only [match_indices, List.enum_map, List.filter_map, List.map_map]
  rfl

theorem match_indices_congr (f : CStr → CStr → Bool) (s : CStr) (l1 l2 : List MenuLine)
    (h : l1.map (fun l => l.line) = l2.map (fun l => l.line)) :
    match_indices f s l1 = match_indices f s l2 := by
  rw [match_indices_texts, match_indices_texts, h]

theorem filter_length_congr (f : CStr → CStr → Bool) (s : CStr) (l1 l2 : List MenuLine)
    (h : l1.map (fun l => l.line) = l2.map (fun l => l.line)) :
    (l1.filter (fun l => f l.line s)).length = (l2.filter (fun l => f l.line s)).length := by
  have e : ∀ l : List MenuLine, (l.filter (fun l => f l.line s)).length =
      ((l.map (fun l => l.line)).filter (fun t => f t s)).length := by
    intro l
    rw [List.filter_map, List.length_map]
    rfl
  rw [e l1, e l2, h]

theorem match_indices_length (f : CStr → CStr → Bool) (s : CStr) (lines : List MenuLine) :
    (match_indices f s lines).length = (lines.filter (fun l => f l.line s)).length := by
  have h2 : (fun (p : Nat × MenuLine) => f p.2.line s) = (fun l => f l.line s) ∘ Prod.snd := rfl
  have h : (lines.enum.filter (fun p => f p.2.line s)).map Prod.snd =
      lines.filter (fun l => f l.line s) := by
    rw [h2, ← List.filter_map, List.enum_map_snd]
  rw [← h]
  simp [match_indices]

theorem match_indices_getElem (f : CStr → CStr → Bool) (s : CStr) (lines : List MenuLine)
    (k : Nat) (hk : k < (lines.filter (fun l => f l.line s)).length) :
    ∃ i l, (match_indices f s lines)[k]? = some (some i) ∧ lines[i]? = some l ∧
      f l.line s = true := by
  have hlen := match_indices_length f s lines
  have hk2 : k < (lines.enum.filter (fun p => f p.2.line s)).length := by
    simp only [match_indices, List.length_map] at hlen
    omega
  have hmem := List.getElem_mem hk2
  obtain ⟨hm1, hm2⟩ := List.mem_filter.mp hmem
  refine ⟨((lines.enum.filter (fun p => f p.2.line s))[k]).1,
    ((lines.enum.filter (fun p => f p.2.line s))[k]).2, ?_, ?_, hm2⟩
  · simp [match_indices, List.getElem?_eq_getElem hk2]
  · exact List.mem_enum_iff_getElem?.mp hm1

theorem MatchInv_cursor (cfg : Config) (st : PromptState) (hinv : MatchInv cfg st)
    (hc : st.cursor < st.mlines) :
    ∃ p l, st.matches_[st.cursor]? = some (some p) ∧ st.lines[p]? = some l ∧
      cfg.fstrstr l.line (cstr st.input) = true := by
  obtain ⟨_, htake, hcount⟩ := hinv
  obtain ⟨i, l, h1, h2, h3⟩ := match_indices_getElem cfg.fstrstr (cstr st.input) st.lines
    st.cursor (hcount ▸ hc)
  refine ⟨i, l, ?_, h2, h3⟩
  rw [← h1, ← htake, List.getElem?_take]
  simp [hc]

theorem apply_filter_MatchInv (cfg : Config) (st : PromptState)
    (hlen : st.lines.length ≤ st.matches_.length) : MatchInv cfg (apply_filter cfg st) := by
  obtain ⟨h1, h3⟩ := menuline_match_indices cfg.fstrstr st.lines (cstr st.input) st.matches_
    st.mlines hlen
  have h0 := (menuline_match_loop_spec cfg.fstrstr (cstr st.input) st.lines 0 st.matches_ 0
    (le_refl 0) (by simpa using hlen)).1
  refine ⟨?_, h1, h3⟩
  show st.lines.length ≤
    (menuline_match cfg.fstrstr st.lines (cstr st.input) st.matches_ st.mlines).2.1.length
  simp only [menuline_match]
  omega

theorem MatchInv_congr (cfg : Config) (st st1 : PromptState) (hinv : MatchInv cfg st)
    (hl : st1.lines.map (fun l => l.line) = st.lines.map (fun l => l.line))
    (hm : st1.matches_ = st.matches_) (hn : st1.mlines = st.mlines)
    (hi : st1.input = st.input) : MatchInv cfg st1 := by
  obtain ⟨h1, h2, h3⟩ := hinv
  have hlen : st1.lines.length = st.lines.length := by
    simpa using congrArg List.length hl
  refine ⟨by rw [hm, hlen]; exact h1, ?_, ?_⟩
  · rw [hm, hn, hi, h2]
    exact match_indices_congr _ _ _ _ hl.symm
  · rw [hn, hi, h3]
    exact filter_length_congr _ _ _ _ hl.symm

theorem MatchInv_init (cfg : Config) (lines : List MenuLine) :
    MatchInv cfg (prompt_init cfg lines) :=
  apply_filter_MatchInv cfg
    { lines := lines, matches_ := List.replicate lines.length none, mlines := 0, cursor := 0,
      input := [], psel := none, finish := false } (by simp)

theorem autoselect_step_MatchInv (cfg : Config) (st st1 : PromptState)
    (h : autoselect_step cfg st = .ok st1) (hinv : MatchInv cfg st) : MatchInv cfg st1 := by
  obtain ⟨h1, h2, _, h4, _⟩ := autoselect_step_frame cfg st st1 h
  exact MatchInv_congr cfg st st1 hinv (autoselect_step_line cfg st st1 h) h1 h2 h4

theorem edit_key_length (cfg : Config) (st st1 : PromptState) (c : Char)
    (h : edit_key cfg st c = .ok st1) :
    st1.lines.length = st.lines.length ∧ st1.matches_ = st.matches_ := by
  unfold edit_key at h
  split at h
  · split at h <;> (cases h; exact ⟨rfl, rfl⟩)
  · split at h
    · cases h; exact ⟨rfl, rfl⟩
    · split at h
      · have hl1 : (if (!cfg.multiselect) = true then menuline_select st.lines false
            else st.lines).length = st.lines.length := by
          split <;> simp [menuline_select]
        cases hc : st.matches_[st.cursor]? with
        | none => simp [hc] at h
        | some q =>
          cases q with
          | none => simp [hc] at h
          | some p =>
            simp only [hc, Except.ok.injEq] at h
            subst h
            exact ⟨by simpa [toggle_selected] using hl1, rfl⟩
      · split at h <;> (cases h; exact ⟨rfl, rfl⟩)

theorem prompt_iter_MatchInv (cfg : Config) (height : Nat) (st st1 : PromptState)
    (keys keys1 : List Char) (hinv : MatchInv cfg st)
    (h : prompt_iter cfg height st keys = .ok (some (st1, keys1))) : MatchInv cfg st1 := by
  unfold prompt_iter at h
  cases ha : autoselect_step cfg st with
  | error e => simp [ha] at h
  | ok sa =>
    have hsa := autoselect_step_MatchInv cfg st sa ha hinv
    simp only [ha] at h
    cases keys with
    | nil => simp at h
    | cons c ks =>
      simp only at h
      split at h
      · cases hh : handle_control height sa.cursor sa.mlines ks with
        | none => simp [hh] at h
        | some r =>
          obtain ⟨fin, cur, ks1⟩ := r
          simp only [hh, Except.ok.injEq, Option.some.injEq, Prod.mk.injEq] at h
          obtain ⟨h, _⟩ := h
          subst h
          refine MatchInv_congr cfg sa _ hsa ?_ rfl rfl rfl
          show (if fin = true then menuline_select sa.lines false else sa.lines).map _ = _
          split
          · exact menuline_select_line _ _
          · rfl
      · unfold handle_key at h
        cases he : edit_key cfg sa c with
        | error e => simp [he] at h
        | ok se =>
          simp only [he, Except.ok.injEq, Option.some.injEq, Prod.mk.injEq] at h
          obtain ⟨h, _⟩ := h
          subst h
          obtain ⟨hl, hm⟩ := edit_key_length cfg sa se c he
          exact apply_filter_MatchInv cfg se (by rw [hl, hm]; exact hsa.1)

theorem prompt_loop_MatchInv (cfg : Config) (height : Nat) :
    ∀ (fuel : Nat) (st st1 : PromptState) (keys keys1 : List Char), MatchInv cfg st →
      prompt_loop cfg height fuel st keys = .ok (st1, keys1) → MatchInv cfg st1 := by
  intro fuel
  induction fuel with
  | zero =>
    intro st st1 keys keys1 hinv h
    simp only [prompt_loop, Except.ok.injEq, Prod.mk.injEq] at h
    exact h.1 ▸ hinv
  | succ n ih =>
    intro st st1 keys keys1 hinv h
    simp only [prompt_loop] at h
    split at h
    · simp only [Except.ok.injEq, Prod.mk.injEq] at h
      exact h.1 ▸ hinv
    · cases hi : prompt_iter cfg height st keys with
      | error e => simp [hi] at h
      | ok r =>
        cases r with
        | none =>
          simp only [hi, Except.ok.injEq, Prod.mk.injEq] at h
          exact h.1 ▸ hinv
        | some r =>
          obtain ⟨s2, k2⟩ := r
          simp only [hi] at h
          exact ih s2 st1 k2 keys1 (prompt_iter_MatchInv cfg height st s2 keys k2 hinv hi) h

theorem prompt_MatchInv (cfg : Config) (lines : List MenuLine) (height : Nat)
    (keys keys1 : List Char) (st : PromptState)
    (h : prompt cfg lines height keys = .ok (st, keys1)) : MatchInv cfg st := by
  unfold prompt at h
  split at h
  · cases h
  · exact prompt_loop_MatchInv cfg height _ _ _ _ _ (MatchInv_init cfg lines) h

/-! ## Tab and Enter -/

theorem edit_key_tab (cfg : Config) (st : PromptState) (p : Nat)
    (hp : st.matches_[st.cursor]? = some (some p)) :
    edit_key cfg st '\t' = .ok { st with
      lines := toggle_selected
        (if !cfg.multiselect then menuline_select st.lines false else st.lines) p } := by
  have h1 : ('\t' : Char) ≠ Char.ofNat 127 := by decide
  have h2 : ('\t' : Char) ≠ '\n' := by decide
  have h3 : ('\t' : Char) ≠ Char.ofNat 13 := by decide
  simp only [edit_key, h1, h2, h3, if_false, or_self, if_true, hp]

theorem edit_key_enter (cfg : Config) (st : PromptState) :
    edit_key cfg st '\n' = .ok { st with finish := true } := by
  have h1 : ('\n' : Char) ≠ Char.ofNat 127 := by decide
  simp only [edit_key, h1, if_false, true_or, if_true]

/-- C9: in multi-select mode (where `main` has switched autoselect off), in a
state whose match set is the one `menuline_match` computed, with a cursor
inside it: the pass that reads Tab succeeds, negates the `selected` flag of the
line `matches_[cursor]` points to, and leaves every other cell of the line
store, the length of the store and `finish` as they were. -/
theorem tab_multiselect (cfg : Config) (height : Nat) (st : PromptState) (keys : List Char)
    (hinv : MatchInv cfg st) (hmulti : cfg.multiselect = true) (hauto : cfg.autoselect = false)
    (hc : st.cursor < st.mlines) :
    ∃ p l st1, st.matches_[st.cursor]? = some (some p) ∧ st.lines[p]? = some l ∧
      prompt_iter cfg height st ('\t' :: keys) = .ok (some (st1, keys)) ∧
      st1.finish = st.finish ∧
      st1.lines.length = st.lines.length ∧
      st1.lines[p]? = some { l with selected := !l.selected } ∧
      (∀ i, i ≠ p → st1.lines[i]? = st.lines[i]?) := by
  obtain ⟨p, l, hp, hl, _⟩ := MatchInv_cursor cfg st hinv hc
  have hne : ('\t' : Char) ≠ ctocntrl '[' := by decide
  refine ⟨p, l, apply_filter cfg { st with lines := toggle_selected st.lines p }, hp, hl, ?_,
    rfl, ?_, ?_, ?_⟩
  · simp [prompt_iter, autoselect_step, hauto, hne, handle_key, edit_key_tab cfg st p hp, hmulti]
  · show (toggle_selected st.lines p).length = st.lines.length
    simp [toggle_selected]
  · show (toggle_selected st.lines p)[p]? = _
    simp [toggle_selected, hl]
  · intro i hi
    show (toggle_selected st.lines p)[i]? = _
    simp [toggle_selected, List.getElem?_modify, Ne.symm hi]


/-- Witness of C9: three lines, two of them selected, the cursor on the second. -/
theorem tab_multiselect_witness :
    ∃ st1, prompt_iter { config_init with multiselect := true } 2
        { prompt_init config_init [⟨true, ['a']⟩, ⟨true, ['b']⟩, ⟨false, ['c']⟩] with cursor := 1 }
        ['\t'] = .ok (some (st1, [])) ∧
      st1.lines[0]? = some ⟨true, ['a']⟩ ∧ st1.lines[1]? = some ⟨false, ['b']⟩ ∧
      st1.lines[2]? = some ⟨false, ['c']⟩ := by
  obtain ⟨p, l, st1, hp, hl, hrun, _, _, hsel, hrest⟩ :=
    tab_multiselect { config_init with multiselect := true } 2
      { prompt_init config_init [⟨true, ['a']⟩, ⟨true, ['b']⟩, ⟨false, ['c']⟩] with cursor := 1 }
      [] (by decide) rfl rfl (by decide)
  have hp1 : p = 1 := by
    have : (some (some 1) : Option (Option Nat)) = some (some p) := hp
    simpa using this.symm
  subst hp1
  have hl1 : l = ⟨true, ['b']⟩ := by
    have : (some ⟨true, ['b']⟩ : Option MenuLine) = some l := hl
    simpa using this.symm
  subst hl1
  exact ⟨st1, hrun, (hrest 0 (by decide)).trans rfl, hsel, (hrest 2 (by decide)).trans rfl⟩

theorem modify_filter_single (lines : List MenuLine) (p : Nat) (l : MenuLine)
    (hl : lines[p]? = some l) :
    (toggle_selected (menuline_select lines false) p).filter (fun x => x.selected) =
      [{ l with selected := true }] := by
  have hp : p < lines.length := (List.getElem?_eq_some_iff.mp hl).1
  have hget : lines[p] = l := (List.getElem?_eq_some_iff.mp hl).2
  have hp2 : p < (menuline_select lines false).length := by simpa [menuline_select] using hp
  have hnone : ∀ (xs : List MenuLine), (∀ x ∈ xs, x.selected = false) →
      xs.filter (fun x => x.selected) = [] := by
    intro xs hxs
    rw [List.filter_eq_nil_iff]
    intro x hx
    simp [hxs x hx]
  have hall := menuline_select_all lines false
  rw [toggle_selected, List.modify_eq_take_cons_drop hp2, List.filter_append, List.filter_cons]
  rw [hnone _ (fun x hx => hall x (List.mem_of_mem_take hx)),
    hnone _ (fun x hx => hall x (List.mem_of_mem_drop hx))]
  simp [menuline_select, hget]

/-- C10: in single-select mode without autoselect, in a running state whose
match set is the one `menuline_match` computed for the filter and with a cursor
inside it, the keys Tab and Enter end the loop with exactly one line selected,
the matching line `matches_[cursor]` points to; `main` prints that line and a
newline and returns 0. -/
theorem tab_enter_single (cfg : Config) (height fuel : Nat) (st : PromptState)
    (keys : List Char) (hinv : MatchInv cfg st) (hsingle : cfg.multiselect = false)
    (hauto : cfg.autoselect = false) (hrun : st.finish = false) (hc : st.cursor < st.mlines) :
    ∃ p l st2, st.matches_[st.cursor]? = some (some p) ∧ st.lines[p]? = some l ∧
      cfg.fstrstr l.line (cstr st.input) = true ∧
      prompt_loop cfg height (fuel + 2) st ('\t' :: '\n' :: keys) = .ok (st2, keys) ∧
      st2.finish = true ∧
      st2.lines = toggle_selected (menuline_select st.lines false) p ∧
      st2.lines.filter (fun x => x.selected) = [{ l with selected := true }] ∧
      main_output st2.lines = l.line ++ ['\n'] ∧ main_status st2.lines = 0 := by
  obtain ⟨p, l, hp, hl, hmatch⟩ := MatchInv_cursor cfg st hinv hc
  have hne1 : ('\t' : Char) ≠ ctocntrl '[' := by decide
  have hne2 : ('\n' : Char) ≠ ctocntrl '[' := by decide
  have hf := modify_filter_single st.lines p l hl
  refine ⟨p, l, apply_filter cfg { apply_filter cfg
      { st with lines := toggle_selected (menuline_select st.lines false) p } with
      finish := true }, hp, hl, hmatch, ?_, rfl, rfl, hf, ?_, ?_⟩
  · have e1 : prompt_iter cfg height st ('\t' :: '\n' :: keys) = .ok (some (apply_filter cfg
        { st with lines := toggle_selected (menuline_select st.lines false) p },
        '\n' :: keys)) := by
      simp [prompt_iter, autoselect_step, hauto, hne1, handle_key, edit_key_tab cfg st p hp,
        hsingle]
    have e2 : ∀ s : PromptState, prompt_iter cfg height s ('\n' :: keys) =
        .ok (some (apply_filter cfg { s with finish := true }, keys)) := by
      intro s
      simp [prompt_iter, autoselect_step, hauto, hne2, handle_key, edit_key_enter]
    have hfin : (apply_filter cfg
        { st with lines := toggle_selected (menuline_select st.lines false) p }).finish
          = false := hrun
    cases fuel <;> simp [prompt_loop, hrun, e1, e2, hfin, apply_filter]
  · show main_output (toggle_selected (menuline_select st.lines false) p) = _
    simp [main_output, hf]
  · show main_status (toggle_selected (menuline_select st.lines false) p) = _
    simp [main_status, hf]

/-- Witness of C10: lines `a`, `bb`, `ccc`, the filter `b`, then Tab and Enter:
the output is `bb` and a newline, the exit status 0. -/
theorem tab_enter_single_witness :
    ∃ st st2, prompt config_init (load_lines [['a'], ['b', 'b'], ['c', 'c', 'c']]) 2 ['b']
        = .ok (st, []) ∧
      prompt_loop config_init 2 2 st ['\t', '\n'] = .ok (st2, []) ∧
      main_output st2.lines = ['b', 'b', '\n'] ∧ main_status st2.lines = 0 := by
  obtain ⟨p, l, st2, hp, hl, _, hrun, _, _, _, hout, hstat⟩ :=
    tab_enter_single config_init 2 0
      (apply_filter config_init
        { prompt_init config_init (load_lines [['a'], ['b', 'b'], ['c', 'c', 'c']]) with
          input := ['b'] })
      [] (by decide) rfl rfl rfl (by decide)
  refine ⟨_, st2, rfl, hrun, ?_, hstat⟩
  have hp1 : p = 1 := by
    have : (some (some 1) : Option (Option Nat)) = some (some p) := hp
    simpa using this.symm
  subst hp1
  have hl1 : l = ⟨false, ['b', 'b']⟩ := by
    have : (some ⟨false, ['b', 'b']⟩ : Option MenuLine) = some l := hl
    simpa using this.symm
  subst hl1
  exact hout

/-! ## The output stage -/

theorem main_emit_spec : ∀ (lines : List MenuLine) (out : List Char) (len : Nat),
    main_emit lines out len =
      (out ++ main_output lines, len + (lines.filter (fun l => l.selected)).length) := by
  intro lines
  induction lines with
  | nil => intro out len; simp [main_emit, main_output]
  | cons l rest ih =>
    intro out len
    by_cases hl : l.selected = true
    · simp only [main_emit, hl, if_true, ih, main_output, List.filter_cons, List.flatMap_cons,
        List.length_cons, List.append_assoc]
      simp only [Prod.mk.injEq, true_and]
      omega
    · simp only [main_emit, hl, ih, main_output, List.filter_cons]
      simp

/-- C12: whatever the final line store, the output stage of `main` writes the
texts of the selected lines, each followed by a newline, in store order and
nothing else; it returns 0 or 1, and it returns 0 exactly when a line is
selected, which is exactly when something was written. -/
theorem output_stage (lines : List MenuLine) :
    (main_finish lines).1 =
      (lines.filter (fun l => l.selected)).flatMap (fun l => l.line ++ ['\n']) ∧
    ((main_finish lines).2 = 0 ∨ (main_finish lines).2 = 1) ∧
    ((main_finish lines).2 = 0 ↔ ∃ l ∈ lines, l.selected = true) ∧
    ((main_finish lines).2 = 0 ↔ (main_finish lines).1 ≠ []) ∧
    main_finish lines = (main_output lines, main_status lines) := by
  have h := main_emit_spec lines [] 0
  have h1 : (main_finish lines).1 = main_output lines := by simp [main_finish, h]
  have h2 : (main_finish lines).2 =
      if (lines.filter (fun l => l.selected)).length = 0 then 1 else 0 := by
    simp [main_finish, h]
  have hex : (lines.filter (fun l => l.selected)).length = 0 ↔ ¬ ∃ l ∈ lines, l.selected = true := by
    rw [List.length_eq_zero, List.filter_eq_nil_iff]
    simp
  have hne : main_output lines ≠ [] ↔ ∃ l ∈ lines, l.selected = true := by
    simp [main_output, List.flatMap_eq_nil_iff]
  refine ⟨h1, ?_, ?_, ?_, ?_⟩
  · rw [h2]; split <;> simp
  · rw [h2]
    by_cases he : ∃ l ∈ lines, l.selected = true
    · have : ¬ (lines.filter (fun l => l.selected)).length = 0 := fun h0 => (hex.mp h0) he
      simp [this, he]
    · have : (lines.filter (fun l => l.selected)).length = 0 := hex.mpr he
      simp [this, he]
  · rw [h1, hne, h2]
    by_cases he : ∃ l ∈ lines, l.selected = true
    · have : ¬ (lines.filter (fun l => l.selected)).length = 0 := fun h0 => (hex.mp h0) he
      simp [this, he]
    · have : (lines.filter (fun l => l.selected)).length = 0 := hex.mpr he
      simp [this, he]
  · exact Prod.ext h1 (by rw [h2]; rfl)

/-! ## The empty filter and the cursor reset -/

theorem strstr_nil (h : CStr) : strstr h [] = true := by
  cases h <;> simp [strstr]

theorem match_indices_all (f : CStr → CStr → Bool) (s : CStr) (lines : List MenuLine)
    (hall : ∀ l ∈ lines, f l.line s = true) :
    match_indices f s lines = (List.range lines.length).map some ∧
    (lines.filter (fun l => f l.line s)).length = lines.length := by
  have h1 : lines.enum.filter (fun p => f p.2.line s) = lines.enum := by
    rw [List.filter_eq_self]
    intro p hp
    exact hall p.2 (List.snd_mem_of_mem_enum hp)
  have h2 : lines.filter (fun l => f l.line s) = lines := by
    rw [List.filter_eq_self]
    exact hall
  refine ⟨?_, by rw [h2]⟩
  rw [match_indices, h1, ← List.enum_map_fst lines, List.map_map]
  rfl

theorem menuline_match_length (f : CStr → CStr → Bool) (lines : List MenuLine) (s : CStr)
    (m : List (Option Nat)) (k : Nat) (hlen : lines.length ≤ m.length) :
    (menuline_match f lines s m k).2.1.length = m.length := by
  have h := (menuline_match_loop_spec f s lines 0 m 0 (le_refl 0) (by simpa using hlen)).1
  simpa [menuline_match] using h

/-- C13: with a predicate that finds the empty needle in every text,
`menuline_match` against the empty filter sets `*mlines` to the number of lines
and makes `matches_[i]` point to `lines[i]` for every `i`; the state in which
`prompt` enters its loop has this match set, the cursor 0 and an empty filter.
The hypothesis `hlen` is the size of the array. -/
theorem empty_filter_matches_all (cfg : Config) (lines : List MenuLine)
    (matches_ : List (Option Nat)) (mlines : Nat)
    (hcont : ∀ h, cfg.fstrstr h [] = true) (hlen : lines.length ≤ matches_.length) :
    (menuline_match cfg.fstrstr lines [] matches_ mlines).2.2 = lines.length ∧
    (∀ i, i < lines.length →
      (menuline_match cfg.fstrstr lines [] matches_ mlines).2.1[i]? = some (some i)) ∧
    (prompt_init cfg lines).mlines = lines.length ∧
    (prompt_init cfg lines).matches_ = (List.range lines.length).map some ∧
    (prompt_init cfg lines).cursor = 0 ∧ (prompt_init cfg lines).input = [] := by
  obtain ⟨ha1, ha2⟩ := match_indices_all cfg.fstrstr [] lines (fun l _ => hcont l.line)
  have key : ∀ (m : List (Option Nat)) (k : Nat), lines.length ≤ m.length →
      (menuline_match cfg.fstrstr lines [] m k).2.2 = lines.length ∧
      (menuline_match cfg.fstrstr lines [] m k).2.1.take lines.length =
        (List.range lines.length).map some := by
    intro m k hm
    obtain ⟨h1, h2⟩ := menuline_match_indices cfg.fstrstr lines [] m k hm
    rw [ha2] at h2
    rw [h2, ha1] at h1
    exact ⟨h2, h1⟩
  obtain ⟨k1, k2⟩ := key matches_ mlines hlen
  obtain ⟨p1, p2⟩ := key (List.replicate lines.length none) 0 (by simp)
  have plen := menuline_match_length cfg.fstrstr lines [] (List.replicate lines.length none) 0
    (by simp)
  refine ⟨k1, ?_, p1, ?_, rfl, rfl⟩
  · intro i hi
    have : ((menuline_match cfg.fstrstr lines [] matches_ mlines).2.1.take lines.length)[i]? =
        some (some i) := by
      rw [k2]
      simp [hi]
    rw [List.getElem?_take] at this
    simpa [hi] using this
  · show (menuline_match cfg.fstrstr lines [] (List.replicate lines.length none) 0).2.1 = _
    rw [← p2, List.take_of_length_le]
    rw [plen]
    simp

/-- Witness of C13: three lines, one of them empty, matched by `strstr`. -/
theorem empty_filter_matches_all_witness :
    (prompt_init config_init (load_lines [['a'], ['b', 'b'], []])).mlines = 3 ∧
    (prompt_init config_init (load_lines [['a'], ['b', 'b'], []])).matches_ =
      [some 0, some 1, some 2] := by
  have h := empty_filter_matches_all config_init (load_lines [['a'], ['b', 'b'], []])
    [none, none, none] 0 strstr_nil (by decide)
  exact ⟨h.2.2.1, h.2.2.2.1⟩

/-- C14: a byte that is neither Enter nor Tab (Backspace or a filter byte) edits
the filter and leaves cursor, `mlines` and lines alone; the filter is then
applied again, `menuline_match` returns true exactly when the new match count
differs from the count `mlines` held before, and the cursor ends at 0 when the
count differs and at its old value when it does not. -/
theorem filter_key_cursor (cfg : Config) (st : PromptState) (c : Char)
    (h1 : c ≠ '\n') (h2 : c ≠ Char.ofNat 13) (h3 : c ≠ '\t') :
    ∃ st1, edit_key cfg st c = .ok st1 ∧ handle_key cfg st c = .ok (apply_filter cfg st1) ∧
      st1.cursor = st.cursor ∧ st1.mlines = st.mlines ∧ st1.lines = st.lines ∧
      (apply_filter cfg st1).mlines =
        (menuline_match cfg.fstrstr st.lines (cstr st1.input) st.matches_ st.mlines).2.2 ∧
      ((menuline_match cfg.fstrstr st.lines (cstr st1.input) st.matches_ st.mlines).1 = true ↔
        (menuline_match cfg.fstrstr st.lines (cstr st1.input) st.matches_ st.mlines).2.2
          ≠ st.mlines) ∧
      (apply_filter cfg st1).cursor =
        (if (apply_filter cfg st1).mlines = st.mlines then st.cursor else 0) := by
  have hcur : ∀ s : PromptState, (apply_filter cfg s).cursor =
      (if (apply_filter cfg s).mlines = s.mlines then s.cursor else 0) := by
    intro s
    simp only [apply_filter, menuline_match]
    by_cases he : s.mlines = (menuline_match_loop cfg.fstrstr (cstr s.input) s.lines 0
        s.matches_ 0).2
    · simp [← he]
    · have he2 : ¬ (menuline_match_loop cfg.fstrstr (cstr s.input) s.lines 0
        s.matches_ 0).2 = s.mlines := fun h => he h.symm
      simp [he, he2]
  have hflag : ∀ (s : CStr), ((menuline_match cfg.fstrstr st.lines s st.matches_ st.mlines).1 = true ↔
        (menuline_match cfg.fstrstr st.lines s st.matches_ st.mlines).2.2 ≠ st.mlines) := by
    intro s
    simp only [menuline_match, bne_iff_ne, ne_eq]
    exact ⟨fun h h' => h h'.symm, fun h h' => h h'.symm⟩
  by_cases hb : c = Char.ofNat 127
  · by_cases hlen : st.input.length > 0
    · refine ⟨{ st with input := st.input.dropLast }, ?_, ?_, rfl, rfl, rfl, rfl, hflag _, hcur _⟩
      · simp [edit_key, hb, hlen]
      · simp [handle_key, edit_key, hb, hlen]
    · refine ⟨st, ?_, ?_, rfl, rfl, rfl, rfl, hflag _, hcur _⟩
      · simp [edit_key, hb, hlen]
      · simp [handle_key, edit_key, hb, hlen]
  · by_cases hlen : st.input.length < INPUT_LEN - 1
    · refine ⟨{ st with input := st.input ++ [c] }, ?_, ?_, rfl, rfl, rfl, rfl, hflag _, hcur _⟩
      · simp [edit_key, hb, h1, h2, h3, hlen]
      · simp [handle_key, edit_key, hb, h1, h2, h3, hlen]
    · refine ⟨st, ?_, ?_, rfl, rfl, rfl, rfl, hflag _, hcur _⟩
      · simp [edit_key, hb, h1, h2, h3, hlen]
      · simp [handle_key, edit_key, hb, h1, h2, h3, hlen]

/-- Witness of C14: three lines, the cursor on the third; the byte `a` leaves
two matches and the cursor goes to 0. -/
theorem filter_key_cursor_witness :
    ∃ st, handle_key config_init
        { prompt_init config_init (load_lines [['a'], ['a', 'b'], ['c']]) with cursor := 2 } 'a'
        = .ok st ∧ st.mlines = 2 ∧ st.cursor = 0 := by
  obtain ⟨st1, he, hk, _, _, _, _, _, hcur⟩ := filter_key_cursor config_init
    { prompt_init config_init (load_lines [['a'], ['a', 'b'], ['c']]) with cursor := 2 } 'a'
    (by decide) (by decide) (by decide)
  have hst1 : st1 = { prompt_init config_init (load_lines [['a'], ['a', 'b'], ['c']]) with
      cursor := 2, input := ['a'] } := by
    have : Except.ok st1 = (Except.ok { prompt_init config_init
        (load_lines [['a'], ['a', 'b'], ['c']]) with cursor := 2, input := ['a'] } :
          Except Fault PromptState) := he.symm.trans rfl
    exact Except.ok.inj this
  subst hst1
  exact ⟨_, hk, by decide, by decide⟩

/-! ## Keys that leave the filter alone -/

theorem menuline_match_loop_drop (f : CStr → CStr → Bool) (s : CStr) :
    ∀ (rest : List MenuLine) (i : Nat) (m : List (Option Nat)) (k j : Nat),
      (menuline_match_loop f s rest i m k).2 ≤ j →
      (menuline_match_loop f s rest i m k).1[j]? = m[j]? := by
  intro rest
  induction rest with
  | nil => intro i m k j _; rfl
  | cons l rest ih =>
    intro i m k j hj
    have hmono : ∀ (r : List MenuLine) (i : Nat) (m : List (Option Nat)) (k : Nat),
        k ≤ (menuline_match_loop f s r i m k).2 := by
      intro r
      induction r with
      | nil => intro i m k; exact le_refl _
      | cons a r ihr =>
        intro i m k
        simp only [menuline_match_loop]
        split
        · exact le_trans (Nat.le_succ k) (ihr _ _ _)
        · exact ihr _ _ _
    simp only [menuline_match_loop] at hj ⊢
    split
    · rename_i hl
      simp only [hl, if_true] at hj
      rw [ih _ _ _ j hj]
      have hk : k + 1 ≤ j := le_trans (hmono rest (i + 1) (m.set k (some i)) (k + 1)) hj
      rw [List.getElem?_set_ne (by omega)]
    · rename_i hl
      simp only [hl] at hj
      exact ih _ _ _ j hj

theorem apply_filter_fixed (cfg : Config) (st : PromptState) (hinv : MatchInv cfg st) :
    apply_filter cfg st = st := by
  obtain ⟨hlen, htake, hcount⟩ := hinv
  obtain ⟨h1, h2⟩ := menuline_match_indices cfg.fstrstr st.lines (cstr st.input) st.matches_
    st.mlines hlen
  have hl := menuline_match_length cfg.fstrstr st.lines (cstr st.input) st.matches_ st.mlines hlen
  have hn : (menuline_match cfg.fstrstr st.lines (cstr st.input) st.matches_ st.mlines).2.2 =
      st.mlines := by rw [h2, hcount]
  have hm : (menuline_match cfg.fstrstr st.lines (cstr st.input) st.matches_ st.mlines).2.1 =
      st.matches_ := by
    apply List.ext_getElem?
    intro j
    by_cases hj : j < st.mlines
    · have h1' := h1
      rw [hn] at h1'
      have e1 : ((menuline_match cfg.fstrstr st.lines (cstr st.input) st.matches_
          st.mlines).2.1.take st.mlines)[j]? = (st.matches_.take st.mlines)[j]? := by
        rw [h1', htake]
      simpa [List.getElem?_take, hj] using e1
    · have := menuline_match_loop_drop cfg.fstrstr (cstr st.input) st.lines 0 st.matches_ 0 j
        (by
          have : (menuline_match cfg.fstrstr st.lines (cstr st.input) st.matches_
            st.mlines).2.2 = (menuline_match_loop cfg.fstrstr (cstr st.input) st.lines 0
              st.matches_ 0).2 := rfl
          omega)
      exact this
  have hflag : (menuline_match cfg.fstrstr st.lines (cstr st.input) st.matches_ st.mlines).1 =
      false := by
    have : (menuline_match cfg.fstrstr st.lines (cstr st.input) st.matches_ st.mlines).1 =
      (st.mlines != (menuline_match cfg.fstrstr st.lines (cstr st.input) st.matches_
        st.mlines).2.2) := rfl
    rw [this, hn]
    simp
  unfold apply_filter
  simp only [hm, hn, hflag]
  cases st
  rfl

/-- C15: in a state of the loop (match set as `menuline_match` left it) with an
empty filter, handling Backspace returns the very same state: filter, match
array, match count, cursor, selection flags and `finish` are unchanged. The
pass that reads the byte ends in the state the autoselect block at its head
produced, which keeps filter, match set, cursor and `finish`, and is the
state itself when autoselect is off. -/
theorem backspace_empty_filter (cfg : Config) (height : Nat) (st st1 : PromptState)
    (ks : List Char) (hinv : MatchInv cfg st) (hempty : st.input = [])
    (ha : autoselect_step cfg st = .ok st1) :
    handle_key cfg st (Char.ofNat 127) = .ok st ∧
    prompt_iter cfg height st (Char.ofNat 127 :: ks) = .ok (some (st1, ks)) ∧
    st1.input = st.input ∧ st1.matches_ = st.matches_ ∧ st1.mlines = st.mlines ∧
    st1.cursor = st.cursor ∧ st1.finish = st.finish ∧
    (cfg.autoselect = false → st1 = st) := by
  obtain ⟨f1, f2, f3, f4, f5⟩ := autoselect_step_frame cfg st st1 ha
  have hinv1 := autoselect_step_MatchInv cfg st st1 ha hinv
  have hk : ∀ s : PromptState, MatchInv cfg s → s.input = [] →
      handle_key cfg s (Char.ofNat 127) = .ok s := by
    intro s hs he
    simp [handle_key, edit_key, he, apply_filter_fixed cfg s hs]
  have hne : Char.ofNat 127 ≠ ctocntrl '[' := by decide
  refine ⟨hk st hinv hempty, ?_, f4, f1, f2, f3, f5, ?_⟩
  · simp only [prompt_iter, ha, hne, if_false, hk st1 hinv1 (f4.trans hempty)]
  · intro hoff
    simp only [autoselect_step, hoff, Bool.false_eq_true, if_false, Except.ok.injEq] at ha
    exact ha.symm

/-- Witness of C15: two lines, Backspace as the first key. -/
theorem backspace_empty_filter_witness :
    prompt_iter config_init 2 (prompt_init config_init (load_lines [['x'], ['y']]))
      [Char.ofNat 127] =
      .ok (some (prompt_init config_init (load_lines [['x'], ['y']]), [])) :=
  (backspace_empty_filter config_init 2 (prompt_init config_init (load_lines [['x'], ['y']]))
    _ [] (by decide) rfl rfl).2.1

/-! ## The length of the filter -/

theorem prompt_loop_invariant (cfg : Config) (height : Nat) (P : PromptState → Prop)
    (hstep : ∀ (st st1 : PromptState) (keys keys1 : List Char), P st →
      prompt_iter cfg height st keys = .ok (some (st1, keys1)) → P st1) :
    ∀ (fuel : Nat) (st st1 : PromptState) (keys keys1 : List Char), P st →
      prompt_loop cfg height fuel st keys = .ok (st1, keys1) → P st1 := by
  intro fuel
  induction fuel with
  | zero =>
    intro st st1 keys keys1 hP h
    simp only [prompt_loop, Except.ok.injEq, Prod.mk.injEq] at h
    exact h.1 ▸ hP
  | succ n ih =>
    intro st st1 keys keys1 hP h
    simp only [prompt_loop] at h
    split at h
    · simp only [Except.ok.injEq, Prod.mk.injEq] at h
      exact h.1 ▸ hP
    · cases hi : prompt_iter cfg height st keys with
      | error e => simp [hi] at h
      | ok r =>
        cases r with
        | none =>
          simp only [hi, Except.ok.injEq, Prod.mk.injEq] at h
          exact h.1 ▸ hP
        | some r =>
          obtain ⟨s2, k2⟩ := r
          simp only [hi] at h
          exact ih s2 st1 k2 keys1 (hstep st s2 keys k2 hP hi) h

theorem edit_key_input_length (cfg : Config) (st st1 : PromptState) (c : Char)
    (h : edit_key cfg st c = .ok st1) (hlen : st.input.length ≤ INPUT_LEN - 1) :
    st1.input.length ≤ INPUT_LEN - 1 := by
  unfold edit_key at h
  split at h
  · split at h
    · cases h
      simp only [List.length_dropLast]
      omega
    · cases h; exact hlen
  · split at h
    · cases h; exact hlen
    · split at h
      · cases hc : st.matches_[st.cursor]? with
        | none => simp [hc] at h
        | some q =>
          cases q with
          | none => simp [hc] at h
          | some p =>
            simp only [hc, Except.ok.injEq] at h
            subst h
            exact hlen
      · split at h
        · rename_i hlt
          cases h
          simp only [List.length_append, List.length_singleton]
          omega
        · cases h; exact hlen

theorem prompt_iter_input_length (cfg : Config) (height : Nat) (st st1 : PromptState)
    (keys keys1 : List Char) (hlen : st.input.length ≤ INPUT_LEN - 1)
    (h : prompt_iter cfg height st keys = .ok (some (st1, keys1))) :
    st1.input.length ≤ INPUT_LEN - 1 := by
  unfold prompt_iter at h
  cases ha : autoselect_step cfg st with
  | error e => simp [ha] at h
  | ok sa =>
    have hsa : sa.input.length ≤ INPUT_LEN - 1 := by
      rw [(autoselect_step_frame cfg st sa ha).2.2.2.1]
      exact hlen
    simp only [ha] at h
    cases keys with
    | nil => simp at h
    | cons c ks =>
      simp only at h
      split at h
      · cases hh : handle_control height sa.cursor sa.mlines ks with
        | none => simp [hh] at h
        | some r =>
          obtain ⟨fin, cur, ks1⟩ := r
          simp only [hh, Except.ok.injEq, Option.some.injEq, Prod.mk.injEq] at h
          obtain ⟨h, _⟩ := h
          subst h
          exact hsa
      · unfold handle_key at h
        cases he : edit_key cfg sa c with
        | error e => simp [he] at h
        | ok se =>
          simp only [he, Except.ok.injEq, Option.some.injEq, Prod.mk.injEq] at h
          obtain ⟨h, _⟩ := h
          subst h
          exact edit_key_input_length cfg sa se c he hsa

theorem prompt_input_length (cfg : Config) (lines : List MenuLine) (height : Nat)
    (keys keys1 : List Char) (st : PromptState)
    (h : prompt cfg lines height keys = .ok (st, keys1)) : st.input.length ≤ INPUT_LEN - 1 := by
  unfold prompt at h
  split at h
  · cases h
  · exact prompt_loop_invariant cfg height (fun s => s.input.length ≤ INPUT_LEN - 1)
      (fun s s1 k k1 hs hi => prompt_iter_input_length cfg height s s1 k k1 hs hi)
      _ _ _ _ _ (by simp [prompt_init, INPUT_LEN]) h

theorem cstr_of_no_nul (t : List Char) (h : ∀ x ∈ t, x ≠ Char.ofNat 0) : cstr t = t := by
  unfold cstr
  rw [List.takeWhile_eq_self_iff]
  intro x hx
  simpa using h x hx

/-- C16: in every state `prompt` reaches the filter holds at most
`INPUT_LEN - 1 = 79` bytes, so its closing NUL lies inside the 80 bytes of
`input`. A filter byte `c` (not ESC, Backspace, Enter or Tab) read when the
filter holds 79 bytes is ignored: handling it returns the same state. Read
when the filter is shorter, it is appended at the end of the filter; for a
filter without NUL bytes and `c` not NUL the appended buffer is the filter
text the matcher sees. -/
theorem filter_bounded (cfg : Config) (lines : List MenuLine) (height : Nat)
    (keys rest ks : List Char) (st st1 : PromptState) (c : Char)
    (hreach : prompt cfg lines height keys = .ok (st, rest))
    (ha : autoselect_step cfg st = .ok st1)
    (hesc : c ≠ ctocntrl '[') (hbs : c ≠ Char.ofNat 127) (hnl : c ≠ '\n')
    (hcr : c ≠ Char.ofNat 13) (htab : c ≠ '\t') :
    st.input.length ≤ INPUT_LEN - 1 ∧ st.input.length + 1 ≤ 80 ∧
    (st.input.length = INPUT_LEN - 1 →
      handle_key cfg st c = .ok st ∧
      prompt_iter cfg height st (c :: ks) = .ok (some (st1, ks)) ∧
      st1.input = st.input ∧ st1.matches_ = st.matches_ ∧ st1.mlines = st.mlines ∧
      st1.cursor = st.cursor) ∧
    (st.input.length < INPUT_LEN - 1 →
      ∃ st2, prompt_iter cfg height st (c :: ks) = .ok (some (st2, ks)) ∧
        st2.input = st.input ++ [c] ∧ st2.lines = st1.lines ∧ st2.finish = st.finish ∧
        ((∀ x ∈ st.input, x ≠ Char.ofNat 0) → c ≠ Char.ofNat 0 →
          cstr st2.input = st.input ++ [c])) := by
  have hlen := prompt_input_length cfg lines height keys rest st hreach
  have hinv := prompt_MatchInv cfg lines height keys rest st hreach
  obtain ⟨f1, f2, f3, f4, f5⟩ := autoselect_step_frame cfg st st1 ha
  have hinv1 := autoselect_step_MatchInv cfg st st1 ha hinv
  refine ⟨hlen, by simp only [INPUT_LEN] at hlen; omega, ?_, ?_⟩
  · intro hfull
    have hk : ∀ s : PromptState, MatchInv cfg s → s.input.length = INPUT_LEN - 1 →
        handle_key cfg s c = .ok s := by
      intro s hs he
      simp [handle_key, edit_key, hbs, hnl, hcr, htab, he, apply_filter_fixed cfg s hs]
    refine ⟨hk st hinv hfull, ?_, f4, f1, f2, f3⟩
    simp only [prompt_iter, ha, hesc, if_false, hk st1 hinv1 (by rw [f4]; exact hfull)]
  · intro hlt
    have hlt1 : st1.input.length < INPUT_LEN - 1 := by rw [f4]; exact hlt
    refine ⟨apply_filter cfg { st1 with input := st1.input ++ [c] }, ?_, ?_, rfl, f5, ?_⟩
    · simp [prompt_iter, ha, hesc, handle_key, edit_key, hbs, hnl, hcr, htab, hlt1]
    · show st1.input ++ [c] = st.input ++ [c]
      rw [f4]
    · intro hno hc0
      show cstr (st1.input ++ [c]) = st.input ++ [c]
      rw [f4]
      apply cstr_of_no_nul
      intro x hx
      rcases List.mem_append.mp hx with h | h
      · exact hno x h
      · simp only [List.mem_singleton] at h
        rw [h]
        exact hc0

set_option maxRecDepth 100000 in
/-- Witness of C16: one line `a`; after 79 bytes `a` the filter is full and a
further byte `b` changes nothing. -/
theorem filter_bounded_witness :
    ∃ st, prompt config_init (load_lines [['a']]) 2 (List.replicate 79 'a') = .ok (st, []) ∧
      st.input.length = 79 ∧ st.mlines = 0 ∧
      prompt_iter config_init 2 st ['b'] = .ok (some (st, [])) := by
  obtain ⟨_, _, h, _⟩ := filter_bounded config_init (load_lines [['a']]) 2
    (List.replicate 79 'a') [] [] _ _ 'b' rfl rfl
    (by decide) (by decide) (by decide) (by decide) (by decide)
  exact ⟨_, rfl, by decide, by decide, (h (by decide)).2.1⟩

/-! ## Autoselect and `numdigits` -/

/-- C11, evaluated where it fails: autoselect on, multiselect off. With the one
line `a`, the keys `b`, Tab, Enter end the loop with an empty match set and
line `a` selected, and `main` prints it. With the lines `a` and `ab`, the keys
`x`, ArrowDown, Tab, Backspace, Enter end the loop with two matches and both
lines selected. -/
theorem autoselect_enter_broken :
    (∃ st, prompt { config_init with autoselect := true } (load_lines [['a']]) 2
        ['b', '\t', '\n'] = .ok (st, []) ∧
      st.finish = true ∧ st.mlines = 0 ∧ st.lines = [⟨true, ['a']⟩] ∧
      main_finish st.lines = (['a', '\n'], 0)) ∧
    (∃ st, prompt { config_init with autoselect := true } (load_lines [['a'], ['a', 'b']]) 2
        ['x', ctocntrl '[', '[', 'B', '\t', Char.ofNat 127, '\n'] = .ok (st, []) ∧
      st.finish = true ∧ st.mlines = 2 ∧ st.cursor = 0 ∧
      st.lines = [⟨true, ['a']⟩, ⟨true, ['a', 'b']⟩]) := by
  refine ⟨⟨_, rfl, ?_⟩, ⟨_, rfl, ?_⟩⟩ <;> decide

theorem numdigits_loop_eq : ∀ (fuel n d : Nat), n < fuel →
    numdigits_loop fuel n d = d + (Nat.log 10 n - 1) := by
  intro fuel
  induction fuel with
  | zero => intro n d h; omega
  | succ k ih =>
    intro n d h
    simp only [numdigits_loop]
    by_cases hgo : n / 10 > 9
    · have hn : 100 ≤ n := by omega
      have h1 : Nat.log 10 n = Nat.log 10 (n / 10) + 1 :=
        Nat.log_of_one_lt_of_le (by norm_num) (by omega)
      have h2 : Nat.log 10 (n / 10) = Nat.log 10 (n / 10 / 10) + 1 :=
        Nat.log_of_one_lt_of_le (by norm_num) (by omega)
      rw [if_pos hgo, ih (n / 10) (d + 1) (by omega)]
      omega
    · rw [if_neg hgo]
      by_cases hsmall : n < 10
      · rw [Nat.log_of_lt hsmall]
        rfl
      · have h1 : Nat.log 10 n = Nat.log 10 (n / 10) + 1 :=
          Nat.log_of_one_lt_of_le (by norm_num) (by omega)
        have h2 : Nat.log 10 (n / 10) = 0 := Nat.log_of_lt (by omega)
        omega

theorem numdigits_eq (n : Nat) : numdigits n = 1 + (Nat.log 10 n - 1) :=
  numdigits_loop_eq (n + 1) n 1 (Nat.lt_succ_self n)

/-- From 10 on `numdigits` is one short of the number of decimal digits. -/
theorem numdigits_one_short (n : Nat) (h : 10 ≤ n) :
    numdigits n + 1 = (Nat.digits 10 n).length := by
  rw [numdigits_eq, Nat.digits_len 10 n (by norm_num) (by omega)]
  have h1 : Nat.log 10 n = Nat.log 10 (n / 10) + 1 :=
    Nat.log_of_one_lt_of_le (by norm_num) h
  omega

/-- C19, evaluated where it fails: `numdigits` returns 1 for 10 and for 99 and 2
for 100, one less than the number of decimal digits; for 9 it returns 1. -/
theorem numdigits_short :
    numdigits 10 = 1 ∧ (Nat.digits 10 10).length = 2 ∧
    numdigits 99 = 1 ∧ (Nat.digits 10 99).length = 2 ∧
    numdigits 100 = 2 ∧ (Nat.digits 10 100).length = 3 ∧
    numdigits 9 = 1 ∧ (Nat.digits 10 9).length = 1 := by
  refine ⟨by decide, by norm_num, by decide, by norm_num, by decide, by norm_num, by decide,
    by norm_num⟩

/-! ## Drawing the page -/

theorem read_cstr_map_some (t : List Char) (rest : List (Option Char)) :
    read_cstr (t.map some ++ some NUL :: rest) = .ok (cstr t) := by
  induction t with
  | nil => simp [read_cstr, cstr]
  | cons c t ih =>
    by_cases hc : c = NUL
    · subst hc
      simp [read_cstr, cstr, NUL]
    · have hc0 : (c != Char.ofNat 0) = true := by simpa [NUL] using hc
      simp only [List.map_cons, List.cons_append]
      rw [read_cstr, if_neg hc, ih]
      simp [cstr, List.takeWhile_cons, hc0]

theorem cstr_append_nul (t : List Char) (j : Nat) :
    cstr (t ++ List.replicate j NUL) = cstr t := by
  induction t with
  | nil =>
    cases j with
    | zero => rfl
    | succ j => simp [cstr, List.replicate_succ, NUL]
  | cons c t ih =>
    unfold cstr at ih ⊢
    simp only [List.cons_append, List.takeWhile_cons, ih]

theorem cstr_length_le (t : List Char) : (cstr t).length ≤ t.length := by
  unfold cstr
  exact (List.takeWhile_sublist _).length_le

theorem strncpy_pad_take (line : CStr) (n k : Nat) (hk : k ≤ n) :
    cstr ((line.take n ++ List.replicate (n - line.length) NUL).take k) = cstr (line.take k) := by
  by_cases hL : k ≤ line.length
  · have h1 : k ≤ (line.take n).length := by
      rw [List.length_take]
      omega
    rw [List.take_append_of_le_length h1, List.take_take]
    congr 2
    omega
  · have hL' : line.length < k := by omega
    have h1 : line.take n = line := List.take_of_length_le (by omega)
    have h2 : line.take k = line := List.take_of_length_le (by omega)
    rw [h1, h2, List.take_append_eq_append_take, List.take_of_length_le (by omega),
      List.take_replicate]
    exact cstr_append_nul line _

theorem print_buf_text (w o : Nat) (line : CStr) (h : 2 + o ≤ w) :
    read_cstr ((strncpy (List.replicate w none) line (w - 1)).set (w - 2 - o) (some NUL)) =
      .ok (cstr (line.take (w - 2 - o))) := by
  have hpre : (line.take (w - 1)).map some ++ List.replicate (w - 1 - line.length) (some NUL) =
      (line.take (w - 1) ++ List.replicate (w - 1 - line.length) NUL).map some := by
    simp
  have hlenX : (line.take (w - 1) ++ List.replicate (w - 1 - line.length) NUL).length = w - 1 := by
    simp only [List.length_append, List.length_take, List.length_replicate]
    omega
  have hk : w - 2 - o < (line.take (w - 1) ++ List.replicate (w - 1 - line.length) NUL).length := by
    rw [hlenX]
    omega
  have hset : (strncpy (List.replicate w none) line (w - 1)).set (w - 2 - o) (some NUL) =
      ((line.take (w - 1) ++ List.replicate (w - 1 - line.length) NUL).take (w - 2 - o)).map some
        ++ some NUL ::
        ((strncpy (List.replicate w none) line (w - 1)).drop (w - 2 - o + 1)) := by
    have hlt : w - 2 - o < (strncpy (List.replicate w none) line (w - 1)).length := by
      simp only [strncpy, List.length_append, List.length_map, List.length_take,
        List.length_replicate, List.length_drop]
      omega
    rw [List.set_eq_take_append_cons_drop, if_pos hlt]
    congr 1
    rw [strncpy, hpre, List.take_append_of_le_length (by rw [List.length_map]; omega),
      List.map_take]
  rw [hset, read_cstr_map_some]
  rw [strncpy_pad_take line (w - 1) (w - 2 - o) (by omega)]

theorem print_row_blank (cfg : Config) (scr : Screen) (lines : List MenuLine)
    (ml : List (Option Nat)) (n cur i : Nat) (h : n ≤ i) :
    print_row cfg scr lines ml n cur i = .ok .blank := by
  have : ¬ i < n := by omega
  simp [print_row, this]

theorem print_row_match (cfg : Config) (scr : Screen) (lines : List MenuLine)
    (ml : List (Option Nat)) (n cur i p : Nat) (l : MenuLine) (h : i < n)
    (hp : ml[i]? = some (some p)) (hl : lines[p]? = some l)
    (hw : 2 + scr.print_offset ≤ scr.width) :
    print_row cfg scr lines ml n cur i =
      .ok (if cfg.numbers then
          .numbered (i + 1) (if l.selected then '*' else ' ') (if i = cur then '>' else ' ')
            (cstr (l.line.take (scr.width - 2 - scr.print_offset)))
        else
          .plain (if l.selected then '*' else ' ') (if i = cur then '>' else ' ')
            (cstr (l.line.take (scr.width - 2 - scr.print_offset)))) := by
  have hw' : ¬ scr.width < 2 + scr.print_offset := by omega
  simp only [print_row, h, if_true, hp, hl, hw', if_false,
    print_buf_text scr.width scr.print_offset l.line hw]

theorem menuline_print_loop_ok (cfg : Config) (scr : Screen) (lines : List MenuLine)
    (ml : List (Option Nat)) (n cur : Nat) :
    ∀ (count i : Nat),
      (∀ k, k < count → ∃ r, print_row cfg scr lines ml n cur (i + k) = .ok r) →
      ∃ rows, menuline_print_loop cfg scr lines ml n cur i count = .ok rows ∧
        rows.length = count ∧
        ∀ k, k < count → ∃ r, rows[k]? = some r ∧
          print_row cfg scr lines ml n cur (i + k) = .ok r := by
  intro count
  induction count with
  | zero =>
    intro i _
    exact ⟨[], rfl, rfl, fun k hk => absurd hk (Nat.not_lt_zero k)⟩
  | succ c ih =>
    intro i hall
    obtain ⟨r0, hr0⟩ := hall 0 (Nat.succ_pos c)
    obtain ⟨rs, hrs, hlen, hget⟩ := ih (i + 1) (fun k hk => by
      have := hall (k + 1) (by omega)
      rwa [show i + (k + 1) = i + 1 + k by omega] at this)
    refine ⟨r0 :: rs, ?_, by simp [hlen], ?_⟩
    · rw [Nat.add_zero] at hr0
      simp only [menuline_print_loop, hr0, hrs]
    · intro k hk
      cases k with
      | zero => exact ⟨r0, by simp, hr0⟩
      | succ k =>
        obtain ⟨r, h1, h2⟩ := hget k (by omega)
        refine ⟨r, by simpa using h1, ?_⟩
        rwa [show i + (k + 1) = i + 1 + k by omega]

theorem MatchInv_index (cfg : Config) (st : PromptState) (hinv : MatchInv cfg st) (i : Nat)
    (hi : i < st.mlines) :
    ∃ p l, st.matches_[i]? = some (some p) ∧ st.lines[p]? = some l ∧
      cfg.fstrstr l.line (cstr st.input) = true :=
  MatchInv_cursor cfg { st with cursor := i } hinv hi

theorem print_row_ok (cfg : Config) (scr : Screen) (st : PromptState) (hinv : MatchInv cfg st)
    (hw : 2 + scr.print_offset ≤ scr.width) (i : Nat) :
    ∃ r, print_row cfg scr st.lines st.matches_ st.mlines st.cursor i = .ok r ∧
      (r = .blank ↔ st.mlines ≤ i) ∧
      (row_cursor r = some '>' ↔ (i = st.cursor ∧ i < st.mlines)) ∧
      (i < st.mlines → i ≠ st.cursor → row_cursor r = some ' ') ∧
      (i < st.mlines → ∃ p l, st.matches_[i]? = some (some p) ∧ st.lines[p]? = some l ∧
        row_buf r = some (cstr (l.line.take (scr.width - 2 - scr.print_offset))) ∧
        row_selection r = some (if l.selected then '*' else ' ')) := by
  by_cases hi : i < st.mlines
  · obtain ⟨p, l, hp, hl, _⟩ := MatchInv_index cfg st hinv i hi
    have hrow := print_row_match cfg scr st.lines st.matches_ st.mlines st.cursor i p l hi hp hl hw
    have hgt : ('>' : Char) ≠ ' ' := by decide
    refine ⟨_, hrow, ?_, ?_, ?_, ?_⟩
    · constructor
      · intro hb
        split at hb <;> cases hb
      · intro hle
        omega
    · by_cases hc : i = st.cursor
      · cases cfg.numbers <;> simp [row_cursor, hc, hi] <;> omega
      · cases cfg.numbers <;> simp [row_cursor, hc, hi]
    · intro _ hc
      cases cfg.numbers <;> simp [row_cursor, hc]
    · intro _
      refine ⟨p, l, hp, hl, ?_, ?_⟩
      · cases cfg.numbers <;> simp [row_buf]
      · cases cfg.numbers <;> simp [row_selection]
  · have hrow := print_row_blank cfg scr st.lines st.matches_ st.mlines st.cursor i (by omega)
    refine ⟨_, hrow, ?_, ?_, ?_, ?_⟩
    · simp; omega
    · simp [row_cursor, hi]
    · intro h; exact absurd h hi
    · intro h; exact absurd h hi

theorem menuline_print_unfold (cfg : Config) (scr : Screen) (lines : List MenuLine)
    (ml : List (Option Nat)) (n cur : Nat) (hh : 1 ≤ scr.height) (hw : 1 ≤ scr.width)
    (hint : scr.height * (cur / scr.height + 1) ≤ INT_MAX) :
    menuline_print cfg scr lines ml n cur =
      menuline_print_loop cfg scr lines ml n cur (scr.height * (cur / scr.height)) scr.height := by
  have h1 : ¬ scr.width = 0 := by omega
  have h2 : ¬ scr.height = 0 := by omega
  have h3 : ¬ INT_MAX < scr.height * (cur / scr.height + 1) := by omega
  simp only [menuline_print, h1, h2, h3, if_false]

/-- A call of `menuline_print` inside defined behaviour writes `height` rows, the
row at offset `k` being the one `print_row` gives for the match index
`height * (cursor / height) + k`. -/
theorem menuline_print_ok (cfg : Config) (scr : Screen) (st : PromptState)
    (hinv : MatchInv cfg st) (hh : 1 ≤ scr.height)
    (hw : 2 + scr.print_offset ≤ scr.width)
    (hint : scr.height * (st.cursor / scr.height + 1) ≤ INT_MAX) :
    ∃ rows, menuline_print cfg scr st.lines st.matches_ st.mlines st.cursor = .ok rows ∧
      rows.length = scr.height ∧
      ∀ k, k < scr.height → ∃ r, rows[k]? = some r ∧
        print_row cfg scr st.lines st.matches_ st.mlines st.cursor
          (scr.height * (st.cursor / scr.height) + k) = .ok r ∧
        (r = .blank ↔ st.mlines ≤ scr.height * (st.cursor / scr.height) + k) := by
  rw [menuline_print_unfold cfg scr st.lines st.matches_ st.mlines st.cursor hh (by omega) hint]
  obtain ⟨rows, hrows, hlen, hget⟩ := menuline_print_loop_ok cfg scr st.lines st.matches_
    st.mlines st.cursor scr.height (scr.height * (st.cursor / scr.height))
    (fun k _ => by
      obtain ⟨r, hr, _⟩ := print_row_ok cfg scr st hinv hw
        (scr.height * (st.cursor / scr.height) + k)
      exact ⟨r, hr⟩)
  refine ⟨rows, hrows, hlen, ?_⟩
  intro k hk
  obtain ⟨r, h1, h2⟩ := hget k hk
  obtain ⟨r', hr', hblank, _⟩ := print_row_ok cfg scr st hinv hw
    (scr.height * (st.cursor / scr.height) + k)
  have : r = r' := Except.ok.inj (h2.symm.trans hr')
  subst this
  exact ⟨r, h1, h2, hblank⟩

/-- C17: with a page height of at least 1, one call of `menuline_print` on the
match set of the loop writes exactly `height` rows; the row at offset `k` is
the one of the match index `height * (cursor / height) + k`, an index of the
page `[height * (cursor / height), height * (cursor / height + 1))`, and it is
a blank line exactly when that index is not below the match count. The other
hypotheses keep the call inside defined behaviour: the screen has room for the
two markers and the number column, and the `int` counter stays in range. -/
theorem menuline_print_rows (cfg : Config) (scr : Screen) (st : PromptState)
    (hinv : MatchInv cfg st) (hh : 1 ≤ scr.height)
    (hw : 2 + scr.print_offset ≤ scr.width)
    (hint : scr.height * (st.cursor / scr.height + 1) ≤ INT_MAX) :
    ∃ rows, menuline_print cfg scr st.lines st.matches_ st.mlines st.cursor = .ok rows ∧
      rows.length = scr.height ∧
      ∀ k, k < scr.height → ∃ r, rows[k]? = some r ∧
        scr.height * (st.cursor / scr.height) ≤ scr.height * (st.cursor / scr.height) + k ∧
        scr.height * (st.cursor / scr.height) + k < scr.height * (st.cursor / scr.height + 1) ∧
        print_row cfg scr st.lines st.matches_ st.mlines st.cursor
          (scr.height * (st.cursor / scr.height) + k) = .ok r ∧
        (r = .blank ↔ st.mlines ≤ scr.height * (st.cursor / scr.height) + k) := by
  obtain ⟨rows, h1, h2, h3⟩ := menuline_print_ok cfg scr st hinv hh hw hint
  refine ⟨rows, h1, h2, ?_⟩
  intro k hk
  obtain ⟨r, hr1, hr2, hr3⟩ := h3 k hk
  refine ⟨r, hr1, Nat.le_add_right _ _, ?_, hr2, hr3⟩
  rw [Nat.mul_add, Nat.mul_one]
  omega

/-- Witness of C17: four matches, page height 3, the cursor on the last match:
the second page holds that match and two blank lines. -/
theorem menuline_print_rows_witness :
    ∃ rows, menuline_print config_init ⟨3, 6, 0⟩
        (prompt_init config_init (load_lines [['a'], ['b'], ['c'], ['d']])).lines
        (prompt_init config_init (load_lines [['a'], ['b'], ['c'], ['d']])).matches_ 4 3
        = .ok rows ∧ rows.length = 3 ∧ rows = [.plain ' ' '>' ['d'], .blank, .blank] := by
  obtain ⟨rows, h1, h2, _⟩ := menuline_print_rows config_init ⟨3, 6, 0⟩
    { prompt_init config_init (load_lines [['a'], ['b'], ['c'], ['d']]) with cursor := 3 }
    (by decide) (by decide) (by decide) (by decide)
  refine ⟨rows, h1, h2, ?_⟩
  have h3 : (Except.ok rows : Except Fault (List Row)) =
      .ok [.plain ' ' '>' ['d'], .blank, .blank] := h1.symm.trans rfl
  exact Except.ok.inj h3

/-- C20: with a page height of at least 1 and the cursor inside the match set,
the page `menuline_print` draws has the cursor row: the row at offset
`cursor % height` carries the marker `>` and the text of the line
`matches_[cursor]` points to, cut to `width - 2 - print_offset` bytes; no
other row carries `>`, and every other row that is not blank carries a
blank in the cursor column. -/
theorem cursor_row_drawn (cfg : Config) (scr : Screen) (st : PromptState)
    (hinv : MatchInv cfg st) (hh : 1 ≤ scr.height)
    (hw : 2 + scr.print_offset ≤ scr.width)
    (hint : scr.height * (st.cursor / scr.height + 1) ≤ INT_MAX)
    (hc : st.cursor < st.mlines) :
    ∃ rows p l, menuline_print cfg scr st.lines st.matches_ st.mlines st.cursor = .ok rows ∧
      rows.length = scr.height ∧
      st.matches_[st.cursor]? = some (some p) ∧ st.lines[p]? = some l ∧
      (∃ r, rows[st.cursor % scr.height]? = some r ∧ row_cursor r = some '>' ∧
        row_buf r = some (cstr (l.line.take (scr.width - 2 - scr.print_offset))) ∧
        ((∀ x ∈ l.line, x ≠ Char.ofNat 0) →
          row_buf r = some (l.line.take (scr.width - 2 - scr.print_offset)))) ∧
      (∀ k r, rows[k]? = some r → (row_cursor r = some '>' ↔ k = st.cursor % scr.height)) ∧
      (∀ k r, rows[k]? = some r → k ≠ st.cursor % scr.height → r ≠ .blank →
        row_cursor r = some ' ') := by
  obtain ⟨rows, hrows, hlen, hget⟩ := menuline_print_ok cfg scr st hinv hh hw hint
  obtain ⟨p, l, hp, hl, _⟩ := MatchInv_cursor cfg st hinv hc
  have hbase : scr.height * (st.cursor / scr.height) + st.cursor % scr.height = st.cursor :=
    Nat.div_add_mod st.cursor scr.height
  have hmod : st.cursor % scr.height < scr.height := Nat.mod_lt _ (by omega)
  have hrow : ∀ k r, rows[k]? = some r → k < scr.height ∧
      print_row cfg scr st.lines st.matches_ st.mlines st.cursor
        (scr.height * (st.cursor / scr.height) + k) = .ok r := by
    intro k r hk
    have hklt : k < scr.height := by
      rw [← hlen]
      exact (List.getElem?_eq_some_iff.mp hk).1
    obtain ⟨r', h1, h2, _⟩ := hget k hklt
    have : r = r' := Option.some.inj (hk.symm.trans h1)
    subst this
    exact ⟨hklt, h2⟩
  refine ⟨rows, p, l, hrows, hlen, hp, hl, ?_, ?_, ?_⟩
  · obtain ⟨r, h1, h2, _⟩ := hget (st.cursor % scr.height) hmod
    rw [hbase] at h2
    obtain ⟨r', hr', _, hcur, _, hbuf⟩ := print_row_ok cfg scr st hinv hw st.cursor
    have : r = r' := Except.ok.inj (h2.symm.trans hr')
    subst this
    obtain ⟨p', l', hp', hl', hb, _⟩ := hbuf hc
    have hpp : p' = p := by
      have := hp'.symm.trans hp
      simpa using this
    subst hpp
    have hll : l' = l := Option.some.inj (hl'.symm.trans hl)
    subst hll
    refine ⟨r, h1, hcur.mpr ⟨rfl, hc⟩, hb, ?_⟩
    intro hno
    rw [hb, cstr_of_no_nul]
    intro x hx
    exact hno x (List.mem_of_mem_take hx)
  · intro k r hk
    obtain ⟨hklt, hpr⟩ := hrow k r hk
    obtain ⟨r', hr', _, hcur, _⟩ := print_row_ok cfg scr st hinv hw
      (scr.height * (st.cursor / scr.height) + k)
    have : r = r' := Except.ok.inj (hpr.symm.trans hr')
    subst this
    rw [hcur]
    constructor
    · intro ⟨he, _⟩
      omega
    · intro hk2
      subst hk2
      exact ⟨hbase, by rw [hbase]; exact hc⟩
  · intro k r hk hne hnb
    obtain ⟨hklt, hpr⟩ := hrow k r hk
    obtain ⟨r', hr', hblank, _, hsp, _⟩ := print_row_ok cfg scr st hinv hw
      (scr.height * (st.cursor / scr.height) + k)
    have : r = r' := Except.ok.inj (hpr.symm.trans hr')
    subst this
    have hin : scr.height * (st.cursor / scr.height) + k < st.mlines := by
      by_contra hcon
      exact hnb (hblank.mpr (by omega))
    exact hsp hin (by omega)

/-- Witness of C20: four matches, page height 2, the cursor on the last match:
the cursor row is the second row of the second page. -/
theorem cursor_row_drawn_witness :
    ∃ rows, menuline_print config_init ⟨2, 6, 0⟩
        (prompt_init config_init (load_lines [['a'], ['b'], ['c'], ['d']])).lines
        (prompt_init config_init (load_lines [['a'], ['b'], ['c'], ['d']])).matches_ 4 3
        = .ok rows ∧ rows[3 % 2]? = some (.plain ' ' '>' ['d']) := by
  obtain ⟨rows, p, l, h1, _, _, _, _, _, _⟩ := cursor_row_drawn config_init ⟨2, 6, 0⟩
    { prompt_init config_init (load_lines [['a'], ['b'], ['c'], ['d']]) with cursor := 3 }
    (by decide) (by decide) (by decide) (by decide) (by decide)
  refine ⟨rows, h1, ?_⟩
  have h3 : (Except.ok rows : Except Fault (List Row)) =
      .ok [.plain ' ' ' ' ['c'], .plain ' ' '>' ['d']] := h1.symm.trans rfl
  rw [Except.ok.inj h3]
  rfl

/-- A row fits the screen when numbering is off, and when the line number has
no more digits than the number column is wide. -/
theorem row_fits (cfg : Config) (scr : Screen) (st : PromptState) (hinv : MatchInv cfg st)
    (hw : 2 + scr.print_offset ≤ scr.width) (i : Nat) (r : Row)
    (h : print_row cfg scr st.lines st.matches_ st.mlines st.cursor i = .ok r)
    (hnum : cfg.numbers = true → (decimal (i + 1)).length ≤ scr.print_offset) :
    (row_text scr.print_offset r).length ≤ scr.width := by
  by_cases hi : i < st.mlines
  · obtain ⟨p, l, hp, hl, _⟩ := MatchInv_index cfg st hinv i hi
    have hrow := print_row_match cfg scr st.lines st.matches_ st.mlines st.cursor i p l hi hp hl hw
    have hr := Except.ok.inj (h.symm.trans hrow)
    have hb : (cstr (l.line.take (scr.width - 2 - scr.print_offset))).length ≤
        scr.width - 2 - scr.print_offset :=
      le_trans (cstr_length_le _) (by rw [List.length_take]; exact Nat.min_le_left _ _)
    by_cases hn : cfg.numbers = true
    · have hd := hnum hn
      rw [hr]
      simp only [hn, if_true, row_text, fmt_ld, List.length_append, List.length_replicate,
        List.length_cons, List.length_nil]
      omega
    · rw [hr]
      simp only [hn, row_text, List.length_append, List.length_cons, List.length_nil]
      simp only [Bool.false_eq_true, if_false, row_text, List.length_append, List.length_cons,
        List.length_nil]
      omega
  · have hrow := print_row_blank cfg scr st.lines st.matches_ st.mlines st.cursor i (by omega)
    have hr := Except.ok.inj (h.symm.trans hrow)
    rw [hr]
    simp [row_text]

/-- C18, evaluated where it fails: numbering on, ten lines, a screen 10 columns
wide. `numdigits(10)` is 1, so the text is cut to `10 - 2 - 1 = 7` bytes, but
the number 10 takes two columns: the tenth row is 11 characters long. -/
theorem numbered_row_too_long :
    ∃ rows r,
      menuline_print { config_init with numbers := true }
        ⟨10, 10, prompt_print_offset { config_init with numbers := true } 10⟩
        (load_lines (List.replicate 9 ['x'] ++ [['a', 'b', 'c', 'd', 'e', 'f', 'g', 'h', 'i', 'j']]))
        (prompt_init { config_init with numbers := true }
          (load_lines (List.replicate 9 ['x'] ++
            [['a', 'b', 'c', 'd', 'e', 'f', 'g', 'h', 'i', 'j']]))).matches_
        10 0 = .ok rows ∧
      prompt_print_offset { config_init with numbers := true } 10 = 1 ∧
      rows[9]? = some r ∧
      r = .numbered 10 ' ' ' ' ['a', 'b', 'c', 'd', 'e', 'f', 'g'] ∧
      row_text 1 r = ['1', '0', ' ', ' ', 'a', 'b', 'c', 'd', 'e', 'f', 'g'] ∧
      (row_text 1 r).length = 11 ∧ ¬ (row_text 1 r).length ≤ 10 := by
  refine ⟨_, _, rfl, by decide, rfl, rfl, by decide, by decide, by decide⟩

end Lsel
